import Mathlib

/-!
# Verification of the Go-Wasm host bridge runtime

A shallow embedding, in Lean 4, of the host-side glue code of the
`go-ts-playground` repository (package `vite-wasm`): the linear-memory
marshalling layer (`memory.ts`), the import surface (`imports.ts`) and the
instance driver (`jsGo.ts`).  Definitions are translated from the TypeScript
source; theorems check the natural-language specification against them.

Modelling conventions:
* linear memory is a function `Nat → Nat` holding byte values; every write
  goes through `wr`, which reduces modulo 256 exactly as a `DataView` store
  of a byte does;
* JavaScript numbers are represented by their IEEE-754 float64 bit pattern
  (a `Nat` below `2^64`); `DataView.setFloat64`/`getFloat64` then become pure
  byte moves of that pattern, which is all the glue code ever relies on;
* JavaScript reference values (objects, functions, symbols, typed arrays)
  are identified by an opaque identity token; strings compare by value, as
  they do as JS `Map` keys;
* host calls that re-enter the guest (`Reflect.get` and friends, the wasm
  exports `run`/`resume`/`getsp`) are oracles supplied as parameters.
-/

namespace GoWasmGlue

/-! ## Linear memory

The guest's linear memory.  `memory.ts` accesses it through a `DataView`,
always little-endian; we model the byte store directly. -/

/-- Linear memory: byte value at each address. -/
def Mem : Type := Nat → Nat

/-- Write one byte.  A `DataView` byte store keeps only the low 8 bits. -/
def wr (m : Mem) (a b : Nat) : Mem := fun x => if x = a then b % 256 else m x

/-- Write consecutive bytes starting at `a` (`Uint8Array.set` on the buffer). -/
def writeBytes (m : Mem) (a : Nat) : List Nat → Mem
  | [] => m
  | b :: bs => writeBytes (wr m a b) (a + 1) bs

/-- `DataView.setUint8`. -/
def setUint8 (m : Mem) (a v : Nat) : Mem := wr m a v

/-- `DataView.setUint32(addr, v, true)`: four little-endian bytes of `v`
modulo `2^32`. -/
def setUint32 (m : Mem) (a v : Nat) : Mem :=
  writeBytes m a [v, v / 256, v / 65536, v / 16777216]

/-- `DataView.getUint32(addr, true)`: recompose four little-endian bytes. -/
def getUint32 (m : Mem) (a : Nat) : Nat :=
  m a + 256 * m (a + 1) + 65536 * m (a + 2) + 16777216 * m (a + 3)

/-- JavaScript `ToUint32` of an integral number. -/
def toUint32 (v : Int) : Nat := (v % 4294967296).toNat

/-- Reinterpret a 32-bit unsigned word as signed (`DataView.getInt32`). -/
def toInt32 (n : Nat) : Int :=
  if n % 4294967296 < 2147483648 then (n % 4294967296 : Nat)
  else (n % 4294967296 : Nat) - 4294967296

/-- `DataView.setInt32(addr, v, true)` — same bytes as `setUint32` after
`ToUint32` wrapping. -/
def setInt32 (m : Mem) (a : Nat) (v : Int) : Mem := setUint32 m a (toUint32 v)

/-- `DataView.getInt32(addr, true)`. -/
def getInt32 (m : Mem) (a : Nat) : Int := toInt32 (getUint32 m a)

/-- `memory.ts` `setInt64`: low word at `addr`, `Math.floor(v / 2^32)` at
`addr + 4`.  For an integral `v`, the JS floating division followed by
`Math.floor` is exact floor division, `Int.fdiv`. -/
def setInt64 (m : Mem) (a : Nat) (v : Int) : Mem :=
  setUint32 (setUint32 m a (toUint32 v)) (a + 4) (toUint32 (Int.fdiv v 4294967296))

/-- `memory.ts` `getInt64`: unsigned low word plus sign-extended high word
times `2^32`. -/
def getInt64 (m : Mem) (a : Nat) : Int :=
  (getUint32 m a : Int) + getInt32 m (a + 4) * 4294967296

/-- `DataView.setFloat64(addr, v, true)` on a float with bit pattern `bits`:
the low 32 bits land at `addr`, the high 32 bits at `addr + 4`. -/
def setFloat64bits (m : Mem) (a bits : Nat) : Mem :=
  setUint32 (setUint32 m a bits) (a + 4) (bits / 4294967296)

/-- Bit pattern read back by `DataView.getFloat64(addr, true)`. -/
def getFloat64bits (m : Mem) (a : Nat) : Nat :=
  getUint32 m a + 4294967296 * getUint32 m (a + 4)

/-- Read `n` consecutive bytes (a `Uint8Array` view of length `n`). -/
def readBytes (m : Mem) (a n : Nat) : List Nat :=
  (List.range n).map (fun k => m (a + k))

/-! ## JavaScript values and the external-value table

`memory.ts` keeps `_values` (table of host values the guest references),
`_goRefCounts` (parallel reference counts, `Infinity` for the seeded
entries), `_ids` (inverse `Map` from value to id) and `_idPool` (recycled
ids). -/

/-- IEEE-754 float64 NaN test on a bit pattern: exponent all ones and a
non-zero mantissa.  `isNaN(v)` in JS. -/
def isNaNBits (b : Nat) : Bool :=
  decide (b / 4503599627370496 % 2048 = 2047) && decide (b % 4503599627370496 ≠ 0)

/-- `v === 0` on a float64 bit pattern: `+0` or `-0`. -/
def isZeroBits (b : Nat) : Bool :=
  decide (b = 0) || decide (b = 9223372036854775808)

/-- A JavaScript value as the glue code distinguishes them.  Numbers carry
their float64 bit pattern; objects, symbols, functions and typed byte
arrays carry an opaque identity token; strings compare by value (as they
do as JS `Map` keys).  `obj 0` is `globalThis` and `obj 1` the embedder
instance (`jsGo`), the two seeded reference objects. -/
inductive JSValue where
  | num (bits : Nat)
  | undefined
  | null
  | boolVal (b : Bool)
  | str (s : String)
  | sym (id : Nat)
  | obj (id : Nat)
  | fn (id : Nat)
  | bytes (id : Nat)
deriving DecidableEq, Repr

/-- `typeof v === "number"`. -/
def JSValue.isNumber : JSValue → Bool
  | .num _ => true
  | _ => false

/-- `typeof v === "number" && v === 0` (true for `+0` and `-0`). -/
def numIsZero : JSValue → Bool
  | .num b => isZeroBits b
  | _ => false

/-- `typeof v === "number" && isNaN(v)`. -/
def numIsNaN : JSValue → Bool
  | .num b => isNaNBits b
  | _ => false

/-- Bit pattern of a number value. -/
def numBits : JSValue → Nat
  | .num b => b
  | _ => 0

/-- A number value's bit pattern fits in 64 bits (true of every actual JS
number; `num` with larger payloads is not the image of any float64). -/
def bitsOKb : JSValue → Bool
  | .num b => decide (b < 18446744073709551616)
  | _ => true

/-- The `switch (typeof v)` in `storeValue`: object=1 (but `null` keeps 0),
string=2, symbol=3, function=4; numbers, booleans and `undefined` keep 0.
A typed byte array is an object. -/
def typeFlag : JSValue → Nat
  | .obj _ => 1
  | .bytes _ => 1
  | .str _ => 2
  | .sym _ => 3
  | .fn _ => 4
  | _ => 0

/-- SameValueZero, the key equality of a JS `Map`: `+0`/`-0` collapse, NaN
equals NaN, everything else is strict equality. -/
def sameValueZero (a b : JSValue) : Bool :=
  match a, b with
  | .num x, .num y =>
      decide (x = y) || (isZeroBits x && isZeroBits y) || (isNaNBits x && isNaNBits y)
  | a, b => a == b

/-- A reference count: the seeded entries start at `Infinity`, all others
are finite.  `Infinity` is absorbing for the `++`/`--` done by the code. -/
inductive RefCount where
  | inf
  | fin (n : Int)
deriving DecidableEq, Repr

/-- `count++`. -/
def incCount : RefCount → RefCount
  | .inf => .inf
  | .fin n => .fin (n + 1)

/-- `count--`. -/
def decCount : RefCount → RefCount
  | .inf => .inf
  | .fin n => .fin (n - 1)

/-- The mutable companion structures of the value table. -/
structure RefState where
  values : List JSValue
  goRefCounts : List RefCount
  ids : List (JSValue × Nat)
  idPool : List Nat
deriving DecidableEq, Repr

/-- `_ids.get(v)`: first association whose key is SameValueZero-equal. -/
def idsLookup (ids : List (JSValue × Nat)) (v : JSValue) : Option Nat :=
  match ids with
  | [] => none
  | p :: rest => if sameValueZero p.1 v then some p.2 else idsLookup rest v

/-- `l[i] = a` on a JS array: set in place, or extend (with `d` filler for
holes) when `i` is past the end.  In every reachable state the code only
ever assigns at `i ≤ l.length`. -/
def setIdx {α : Type} (l : List α) (i : Nat) (a : α) (d : α) : List α :=
  if i < l.length then l.set i a
  else l ++ List.replicate (i - l.length) d ++ [a]

/-- The state seeded by `createGoWasmMemory`: `_values` holds NaN, 0, null,
true, false, globalThis, jsGo; all seven counts are `Infinity`; `_ids` maps
the six non-NaN seeds back to their ids; the pool is empty. -/
def initRefState : RefState where
  values := [.num 9221120237041090560, .num 0, .null, .boolVal true, .boolVal false,
    .obj 0, .obj 1]
  goRefCounts := List.replicate 7 .inf
  ids := [(.num 0, 1), (.null, 2), (.boolVal true, 3), (.boolVal false, 4),
    (.obj 0, 5), (.obj 1, 6)]
  idPool := []

/-- The `nanHead` constant `0x7FF80000`. -/
def nanHead : Nat := 2146959360

/-- `memory.ts` `loadValue`: read the float64; `0` decodes to `undefined`,
any non-NaN to that number, and a NaN box to the table entry named by its
low 32 bits. -/
def loadValue (m : Mem) (st : RefState) (addr : Nat) : JSValue :=
  let f := getFloat64bits m addr
  if isZeroBits f then .undefined
  else if !(isNaNBits f) then .num f
  else
    let id := getUint32 m addr
    st.values.getD id .undefined

/-- The id-allocation step of `storeValue`: `_ids.get(v)`, and on a miss
`id = _idPool.pop() ?? _values.length`, then `_values[id] = v`,
`_goRefCounts[id] = 0`, `_ids.set(v, id)`. -/
def allocId (st : RefState) (v : JSValue) : Nat × RefState :=
  match idsLookup st.ids v with
  | some id => (id, st)
  | none =>
    match st.idPool with
    | [] =>
        (st.values.length,
         { values := setIdx st.values st.values.length v .null,
           goRefCounts := setIdx st.goRefCounts st.values.length (.fin 0) (.fin 0),
           ids := (v, st.values.length) :: st.ids,
           idPool := [] })
    | i :: rest =>
        (i,
         { values := setIdx st.values i v .null,
           goRefCounts := setIdx st.goRefCounts i (.fin 0) (.fin 0),
           ids := (v, i) :: st.ids,
           idPool := rest })

/-- `memory.ts` `storeValue`: non-zero numbers verbatim (NaN canonicalised
to head `nanHead`, id 0); `undefined` as float64 zero; every other value
through the table — look up or allocate an id (`allocId`), bump its count,
and write `(nanHead | typeFlag, id)`. -/
def storeValue (m : Mem) (st : RefState) (addr : Nat) (v : JSValue) : Mem × RefState :=
  if v.isNumber && !(numIsZero v) then
    if numIsNaN v then
      (setUint32 (setUint32 m (addr + 4) nanHead) addr 0, st)
    else
      (setFloat64bits m addr (numBits v), st)
  else if v == .undefined then
    (setFloat64bits m addr 0, st)
  else
    let p := allocId st v
    let st2 := { p.2 with
      goRefCounts := p.2.goRefCounts.set p.1 (incCount (p.2.goRefCounts.getD p.1 (.fin 0))) }
    (setUint32 (setUint32 m (addr + 4) (nanHead ||| typeFlag v)) addr p.1, st2)

/-- `memory.ts` `removeRef`: decrement; on reaching zero, null the slot,
drop the inverse mapping and recycle the id. -/
def removeRef (st : RefState) (id : Nat) : RefState :=
  let c := decCount (st.goRefCounts.getD id (.fin 0))
  let counts := st.goRefCounts.set id c
  if c = .fin 0 then
    let v := st.values.getD id .null
    { values := st.values.set id .null,
      goRefCounts := counts,
      ids := st.ids.filter (fun p => !(sameValueZero p.1 v)),
      idPool := st.idPool ++ [id] }
  else
    { st with goRefCounts := counts }

/-- Well-formedness of the companion structures, maintained by the code:
every inverse-map entry points at an in-range slot holding its key, and
pooled ids are in range.  Stated as a boolean so concrete instances
evaluate. -/
def wfB (st : RefState) : Bool :=
  st.ids.all (fun p => st.values.getD p.2 .undefined == p.1 && decide (p.2 < st.values.length)) &&
  st.idPool.all (fun i => decide (i < st.values.length))

/-! ## Argument writer

`storeArguments` serialises argv strings and sorted `KEY=VALUE` environment
entries as NUL-terminated UTF-8 at 8-byte-aligned offsets from 4096, then a
pointer table of 8-byte little-endian slots. -/

/-- UTF-8 bytes of one code point (what `TextEncoder.encode` emits). -/
def utf8Bytes (c : Nat) : List Nat :=
  if c < 128 then [c]
  else if c < 2048 then [192 + c / 64, 128 + c % 64]
  else if c < 65536 then [224 + c / 4096, 128 + c / 64 % 64, 128 + c % 64]
  else [240 + c / 262144, 128 + c / 4096 % 64, 128 + c / 64 % 64, 128 + c % 64]

/-- `TextEncoder.encode` over a whole string. -/
def encodeUTF8 (s : String) : List Nat :=
  s.data.foldr (fun c acc => utf8Bytes c.toNat ++ acc) []

/-- Lexicographic comparison of code sequences — the default string
comparison used by `Array.prototype.sort()`. -/
def lexLe : List Nat → List Nat → Bool
  | [], _ => true
  | _ :: _, [] => false
  | a :: as, b :: bs => if a < b then true else if b < a then false else lexLe as bs

/-- String comparison by code units. -/
def strLe (a b : String) : Bool := lexLe (a.data.map Char.toNat) (b.data.map Char.toNat)

/-- Insert into a sorted list (stable, ascending). -/
def insertSorted (s : String) : List String → List String
  | [] => [s]
  | t :: ts => if strLe s t then s :: t :: ts else t :: insertSorted s ts

/-- `keys.sort()`: ascending insertion sort by `strLe`. -/
def sortStrings : List String → List String
  | [] => []
  | s :: ss => insertSorted s (sortStrings ss)

/-- The serialised form of one argument string: UTF-8 plus the trailing NUL
(the code encodes `str + "\0"`). -/
def argBytes (s : String) : List Nat := encodeUTF8 s ++ [0]

/-- Align an offset up to the next multiple of 8 (the tail of `strPtr`). -/
def alignUp8 (o : Nat) : Nat := if o % 8 ≠ 0 then o + (8 - o % 8) else o

/-- One `strPtr(str)` call of `storeArguments`: write the bytes at the
current offset, record that offset as the pointer, bump and align. -/
def strPtrStep : Mem × Nat × List Nat → String → Mem × Nat × List Nat :=
  fun acc s =>
    (writeBytes acc.1 acc.2.1 (argBytes s),
     alignUp8 (acc.2.1 + (argBytes s).length),
     acc.2.2 ++ [acc.2.1])

/-- One iteration of the pointer-table loop: low word = pointer, high
word = 0, advance 8 bytes. -/
def ptrSlotStep : Mem × Nat → Nat → Mem × Nat :=
  fun acc p => (setUint32 (setUint32 acc.1 acc.2 p) (acc.2 + 4) 0, acc.2 + 8)

/-- The sorted `KEY=VALUE` environment strings
(`Object.keys(env).sort()` then `key + "=" + env[key]`). -/
def envStrings (env : List (String × String)) : List String :=
  (sortStrings (env.map Prod.fst)).map (fun k => k ++ "=" ++ ((env.lookup k).getD ""))

/-- Result record of `storeArguments`. -/
structure ArgsOut where
  argc : Nat
  argv : Nat
  mem : Mem

/-- `memory.ts` `storeArguments`: strings from offset 4096 (argv, then the
sorted env entries, threading the same offset and pointer list with the
first `0` terminator pushed between them), then the pointer table at the
final aligned offset, then the `wasmMinDataAddr` overflow check. -/
def storeArguments (args : List String) (env : List (String × String)) (m0 : Mem) :
    Except String ArgsOut :=
  let a := args.foldl strPtrStep (m0, 4096, [])
  let b := (envStrings env).foldl strPtrStep (a.1, a.2.1, a.2.2 ++ [0])
  let argvPtrs := b.2.2 ++ [0]
  let argv := b.2.1
  let c := argvPtrs.foldl ptrSlotStep (b.1, argv)
  if 12288 ≤ c.2 then
    .error "total length of command line and environment variables exceeds limit"
  else
    .ok { argc := args.length, argv := argv, mem := c.1 }

/-- Pointers produced by a run of `strPtr` calls: the current offset, then
recurse past the aligned end of each string. -/
def ptrsOf : List String → Nat → List Nat
  | [], _ => []
  | s :: ss, off => off :: ptrsOf ss (alignUp8 (off + (argBytes s).length))

/-- Final offset after a run of `strPtr` calls. -/
def endOff : List String → Nat → Nat
  | [], off => off
  | s :: ss, off => endOff ss (alignUp8 (off + (argBytes s).length))

/-- The full sequence of strings `storeArguments` serialises. -/
def allStrings (args : List String) (env : List (String × String)) : List String :=
  args ++ envStrings env

/-- The full pointer list `argvPtrs` that `storeArguments` writes to the
table: argv pointers, a 0 terminator, envp pointers, a 0 terminator. -/
def ptrListOf (args : List String) (env : List (String × String)) : List Nat :=
  ptrsOf args 4096 ++ [0] ++ ptrsOf (envStrings env) (endOff args 4096) ++ [0]

/-! ## The import surface

Each import receives a 32-bit stack pointer (`sp >>>= 0` first) and reads
operands at fixed offsets.  The glue state an import can touch is the
linear memory, the value table, and — for `copyBytesToJS` — the contents of
host-side byte arrays, kept in a heap indexed by identity token. -/

/-- The glue-visible world: guest linear memory, the value table, and the
byte contents of host-side `Uint8Array`s by identity token. -/
structure World where
  mem : Mem
  refs : RefState
  heap : Nat → List Nat

/-- `loadSlice(addr)`: the `(array, len)` pair read as two int64s. -/
def loadSlice (m : Mem) (addr : Nat) : Nat × Nat :=
  ((getInt64 m addr).toNat, (getInt64 m (addr + 8)).toNat)

/-- `loadString(addr)`: the raw UTF-8 bytes of the `(saddr, len)` string.
The host decodes them with `TextDecoder`; we keep the byte sequence, which
determines the decoded string. -/
def loadStringBytes (m : Mem) (addr : Nat) : List Nat :=
  readBytes m (getInt64 m addr).toNat (getInt64 m (addr + 8)).toNat

/-- Host-side oracles used by the reflective imports: the `Reflect.*`
primitives (which may re-enter the guest and therefore transform the whole
world) and the value the wasm export `getsp()` returns afterwards. -/
structure Host where
  reflectGet : World → JSValue → List Nat → World × JSValue
  reflectGetIndex : World → JSValue → Int → World × JSValue
  reflectSet : World → JSValue → List Nat → JSValue → World
  reflectDelete : World → JSValue → List Nat → World
  reflectSetIndex : World → JSValue → Int → JSValue → World
  getsp : Nat

/-- `syscall/js.valueGet`: perform the `Reflect.get`, then re-read `sp`
via `getsp()` (the stack may have moved) and store the result at the
refreshed `sp + 32`. -/
def valueGetImport (h : Host) (w : World) (sp : Nat) : World :=
  let sp := sp % 4294967296
  let v := loadValue w.mem w.refs (sp + 8)
  let p := loadStringBytes w.mem (sp + 16)
  let r := h.reflectGet w v p
  let sp2 := h.getsp % 4294967296
  let s := storeValue r.1.mem r.1.refs (sp2 + 32) r.2
  { r.1 with mem := s.1, refs := s.2 }

/-- `syscall/js.valueSet`: `Reflect.set` only; no result is written back
and `sp` is not re-read. -/
def valueSetImport (h : Host) (w : World) (sp : Nat) : World :=
  let sp := sp % 4294967296
  h.reflectSet w (loadValue w.mem w.refs (sp + 8)) (loadStringBytes w.mem (sp + 16))
    (loadValue w.mem w.refs (sp + 32))

/-- `syscall/js.valueDelete`: `Reflect.deleteProperty` only. -/
def valueDeleteImport (h : Host) (w : World) (sp : Nat) : World :=
  let sp := sp % 4294967296
  h.reflectDelete w (loadValue w.mem w.refs (sp + 8)) (loadStringBytes w.mem (sp + 16))

/-- `syscall/js.valueIndex`: perform the `Reflect.get`, then store the
result at `sp + 24` computed from the pre-call `sp` — the code never calls
`getsp()` here. -/
def valueIndexImport (h : Host) (w : World) (sp : Nat) : World :=
  let sp := sp % 4294967296
  let v := loadValue w.mem w.refs (sp + 8)
  let i := getInt64 w.mem (sp + 16)
  let r := h.reflectGetIndex w v i
  let s := storeValue r.1.mem r.1.refs (sp + 24) r.2
  { r.1 with mem := s.1, refs := s.2 }

/-- `syscall/js.valueSetIndex`: `Reflect.set` only. -/
def valueSetIndexImport (h : Host) (w : World) (sp : Nat) : World :=
  let sp := sp % 4294967296
  h.reflectSetIndex w (loadValue w.mem w.refs (sp + 8)) (getInt64 w.mem (sp + 16))
    (loadValue w.mem w.refs (sp + 24))

/-- `syscall/js.finalizeRef`: `removeRef(getUint32(sp + 8))`. -/
def finalizeRefImport (w : World) (sp : Nat) : World :=
  let sp := sp % 4294967296
  { w with refs := removeRef w.refs (getUint32 w.mem (sp + 8)) }

/-- Is a value a typed byte array (`Uint8Array` / `Uint8ClampedArray`)? -/
def isByteArray : JSValue → Bool
  | .bytes _ => true
  | _ => false

/-- `syscall/js.copyBytesToGo`: dst slice at `sp+8`, src value at `sp+32`;
unless src is a typed byte array, write a 0 success byte at `sp+48` and
return early; otherwise copy `src.subarray(0, dst.length)` into the guest,
store its length as int64 at `sp+40` and a 1 success byte at `sp+48`. -/
def copyBytesToGoImport (w : World) (sp : Nat) : World :=
  let sp := sp % 4294967296
  let dst := loadSlice w.mem (sp + 8)
  let src := loadValue w.mem w.refs (sp + 32)
  match src with
  | .bytes id =>
      let toCopy := (w.heap id).take dst.2
      let m1 := writeBytes w.mem dst.1 toCopy
      let m2 := setInt64 m1 (sp + 40) toCopy.length
      { w with mem := setUint8 m2 (sp + 48) 1 }
  | _ => { w with mem := setUint8 w.mem (sp + 48) 0 }

/-- `syscall/js.copyBytesToJS`: dst value at `sp+8`, src slice at `sp+16`;
unless dst is a typed byte array, write a 0 success byte at `sp+48` and
return early; otherwise overwrite the prefix of the host array with
`src.subarray(0, dst.length)`, store its length as int64 at `sp+40` and a
1 success byte at `sp+48`. -/
def copyBytesToJSImport (w : World) (sp : Nat) : World :=
  let sp := sp % 4294967296
  let dst := loadValue w.mem w.refs (sp + 8)
  let src := loadSlice w.mem (sp + 16)
  match dst with
  | .bytes id =>
      let srcData := readBytes w.mem src.1 src.2
      let toCopy := srcData.take (w.heap id).length
      let heap2 := fun j =>
        if j = id then toCopy ++ (w.heap id).drop toCopy.length else w.heap j
      let m2 := setInt64 w.mem (sp + 40) toCopy.length
      { w with mem := setUint8 m2 (sp + 48) 1, heap := heap2 }
  | _ => { w with mem := setUint8 w.mem (sp + 48) 0 }

/-! ## The instance driver

`jsGo.ts` `createJsGoInstance`: module/exited/exit-promise state and the
operations `loadModule`, `run`, `exit`, `getsp`, `resetMemoryDataView`,
`resume` and `_makeFuncWrapper`.  The guest's exports are oracles; the
effect a guest run can have on the driver state (via the imports it calls)
is passed in as a function. -/

/-- The pending-event record staged by a func wrapper:
`{id, this, args, result}`. -/
structure PendingEvent where
  id : Nat
  receiver : JSValue
  args : List JSValue
  result : Option JSValue
deriving DecidableEq, Repr

/-- Driver state: whether `loadModule` ran, the `_exited` flag, whether the
exit promise has been resolved, and `_pendingEvent`. -/
structure DriverState where
  moduleLoaded : Bool
  exited : Bool
  exitResolved : Bool
  pendingEvent : Option PendingEvent
deriving DecidableEq, Repr

/-- The error message thrown by driver operations before `loadModule`. -/
def moduleNotLoadedMsg : String := "Go Wasm Module not loaded"

/-- The error message thrown by `resume` after the guest exited. -/
def alreadyExitedMsg : String := "Go program has already exited"

/-- `loadModule`: record the module (and rebind the memory view). -/
def loadModuleDriver (s : DriverState) : DriverState := { s with moduleLoaded := true }

/-- `exit(code)`: set `_exited` unconditionally (a non-zero code is only
logged).  Note: unlike the other operations, `exit` performs no
module-loaded check. -/
def exitDriver (_code : Int) (s : DriverState) : DriverState := { s with exited := true }

/-- `getsp()`: requires a loaded module; forwards to the export (oracle). -/
def getspDriver (spVal : Nat) (s : DriverState) : Except String Nat :=
  if s.moduleLoaded = false then .error moduleNotLoadedMsg else .ok spVal

/-- `resetMemoryDataView()`: requires a loaded module; rebinds the memory
view (no driver-state change). -/
def resetMemoryDataViewDriver (s : DriverState) : Except String DriverState :=
  if s.moduleLoaded = false then .error moduleNotLoadedMsg else .ok s

/-- `run(args, env)`: requires a loaded module; serialise the arguments;
call the guest's `run` export (an oracle transforming driver state through
the imports it invokes); if the guest exited synchronously, resolve the
exit promise the returned future awaits. -/
def runDriver (gRun : Nat → Nat → DriverState → DriverState) (args : List String)
    (env : List (String × String)) (s : DriverState) (m : Mem) :
    Except String (DriverState × Mem) :=
  if s.moduleLoaded = false then .error moduleNotLoadedMsg
  else
    match storeArguments args env m with
    | .error e => .error e
    | .ok out =>
        let s1 := gRun out.argc out.argv s
        .ok (if s1.exited then { s1 with exitResolved := true } else s1, out.mem)

/-- `resume()`: requires a loaded module and throws `alreadyExitedMsg` once
the guest has exited; otherwise re-enter the guest and resolve the exit
promise if the guest exited during the call. -/
def resumeDriver (gResume : DriverState → DriverState) (s : DriverState) :
    Except String DriverState :=
  if s.moduleLoaded = false then .error moduleNotLoadedMsg
  else if s.exited = true then .error alreadyExitedMsg
  else
    let s1 := gResume s
    .ok (if s1.exited then { s1 with exitResolved := true } else s1)

/-- The guest's `resume` behaviour as seen by a func wrapper: it may change
driver state and mutate the staged event object (in particular fill in its
`result` field). -/
def GuestResumeFn : Type := DriverState → PendingEvent → DriverState × PendingEvent

/-- `resume()` as invoked by a func wrapper, instrumented: also returns the
final state of the event object the guest mutated, and how many times the
guest's `resume` export actually ran. -/
def resumeWithEvent (g : GuestResumeFn) (ev : PendingEvent) (s : DriverState) :
    Except String (DriverState × PendingEvent) × Nat :=
  if s.moduleLoaded = false then (.error moduleNotLoadedMsg, 0)
  else if s.exited = true then (.error alreadyExitedMsg, 0)
  else
    let r := g s ev
    (.ok (if r.1.exited then { r.1 with exitResolved := true } else r.1, r.2), 1)

/-- The freshly staged event record `{id, this: receiver, args}` with no
result yet. -/
def mkEvent (id : Nat) (receiver : JSValue) (args : List JSValue) : PendingEvent :=
  { id := id, receiver := receiver, args := args, result := none }

/-- What one invocation of a `_makeFuncWrapper(id)` callable produces. -/
structure WrapperOutcome where
  final : Except String DriverState
  result : Option JSValue
  resumeCalls : Nat
  staged : Option PendingEvent

/-- Invoking the callable returned by `_makeFuncWrapper(id)`: build the
event `{id, this: receiver, args}`, stage it as `_pendingEvent`, call
`resume()`, and return `event.result` as the guest left it. -/
def funcWrapperInvoke (g : GuestResumeFn) (s : DriverState) (id : Nat)
    (receiver : JSValue) (args : List JSValue) : WrapperOutcome :=
  let ev : PendingEvent := { id := id, receiver := receiver, args := args, result := none }
  let s1 := { s with pendingEvent := some ev }
  let r := resumeWithEvent g ev s1
  match r.1 with
  | .error e =>
      { final := .error e, result := none, resumeCalls := r.2, staged := s1.pendingEvent }
  | .ok (s2, ev2) =>
      { final := .ok s2, result := ev2.result, resumeCalls := r.2, staged := s1.pendingEvent }

/-- `Except.isOk` specialised (kernel-reducible success test). -/
def exceptIsOk {α : Type} (e : Except String α) : Bool :=
  match e with
  | .ok _ => true
  | .error _ => false

/-! ## Concrete fixtures used by witnesses and counterexamples -/

/-- All-zero linear memory. -/
def zeroMem : Mem := fun _ => 0

/-- The freshly seeded world. -/
def zeroWorld : World := { mem := zeroMem, refs := initRefState, heap := fun _ => [] }

/-- A host whose reflective oracles are inert and whose refreshed `getsp()`
reports 200 — i.e. the guest stack moved during the reflective call. -/
def cexHost : Host where
  reflectGet := fun w _ _ => (w, .null)
  reflectGetIndex := fun w _ _ => (w, .null)
  reflectSet := fun w _ _ _ => w
  reflectDelete := fun w _ _ => w
  reflectSetIndex := fun w _ _ _ => w
  getsp := 200

/-- Memory for the `copyBytesToGo` witness, `sp = 64`: dst slice
`(array=2000, len=3)` at `sp+8`/`sp+16`, and the NaN-boxed reference to
byte array id 7 at `sp+32`. -/
def w6mem : Mem :=
  setInt64 (setInt64 (setUint32 (setUint32 zeroMem 96 7) 100 2146959361) 72 2000) 80 3

/-- Value table with byte array id 7 registered. -/
def w6refs : RefState :=
  { initRefState with
    values := initRefState.values ++ [.bytes 7]
    goRefCounts := initRefState.goRefCounts ++ [.fin 1]
    ids := initRefState.ids ++ [(.bytes 7, 7)] }

/-- World for the `copyBytesToGo` witness: byte array 7 holds
`[1, 2, 3, 4, 5]`. -/
def w6 : World :=
  { mem := w6mem, refs := w6refs, heap := fun j => if j = 7 then [1, 2, 3, 4, 5] else [] }

/-- Arguments of the spec's argument-layout scenario. -/
def c3Args : List String := ["js", "hello"]

/-- Environment of the spec's argument-layout scenario. -/
def c3Env : List (String × String) := [("B", "2"), ("A", "1")]

/-- The successful result of `storeArguments` on the layout scenario. -/
def c3Out : ArgsOut :=
  match storeArguments c3Args c3Env zeroMem with
  | .ok o => o
  | .error _ => { argc := 0, argv := 0, mem := zeroMem }

/-- A driver with a module loaded and the guest still running. -/
def loadedDriver : DriverState :=
  { moduleLoaded := true, exited := false, exitResolved := false, pendingEvent := none }

/-- A driver before `loadModule`. -/
def freshDriver : DriverState :=
  { moduleLoaded := false, exited := false, exitResolved := false, pendingEvent := none }

/-- A guest whose `run` export synchronously invokes `wasmExit`. -/
def gRunExit : Nat → Nat → DriverState → DriverState :=
  fun _ _ s => { s with exited := true }

/-- A guest resume handler that consumes the pending event and fills in
`result` with the float64 `2.0`. -/
def gResume9 : GuestResumeFn :=
  fun s ev => ({ s with pendingEvent := none },
    { ev with result := some (.num 4611686018427387904) })

/-! # Theorems -/

/-! ### Read-after-write lemmas -/

theorem wr_eq (m : Mem) (a b : Nat) : wr m a b a = b % 256 := by
  simp [wr]

theorem wr_ne (m : Mem) (a b x : Nat) (h : x ≠ a) : wr m a b x = m x := by
  simp [wr, h]

theorem writeBytes_out (bs : List Nat) (m : Mem) (a x : Nat)
    (h : x < a ∨ a + bs.length ≤ x) : writeBytes m a bs x = m x := by
  induction bs generalizing m a with
  | nil => rfl
  | cons b bs ih =>
      simp only [writeBytes]
      rw [ih (wr m a b) (a + 1) (by simp at h ⊢; omega)]
      exact wr_ne m a b x (by simp at h; omega)

theorem writeBytes_in (bs : List Nat) (m : Mem) (a k : Nat) (h : k < bs.length) :
    writeBytes m a bs (a + k) = bs.getD k 0 % 256 := by
  induction bs generalizing m a k with
  | nil => simp at h
  | cons b bs ih =>
      cases k with
      | zero =>
          simp only [writeBytes, Nat.add_zero]
          rw [writeBytes_out bs (wr m a b) (a + 1) a (by omega)]
          simpa using wr_eq m a b
      | succ k =>
          simp only [writeBytes]
          rw [show a + (k + 1) = (a + 1) + k by omega,
            ih (wr m a b) (a + 1) k (by simpa using h)]
          simp [List.getD]

theorem setUint32_out (m : Mem) (a v x : Nat) (h : x < a ∨ a + 4 ≤ x) :
    setUint32 m a v x = m x :=
  writeBytes_out _ m a x (by simpa using h)

theorem setUint8_out (m : Mem) (a v x : Nat) (h : x ≠ a) :
    setUint8 m a v x = m x := wr_ne m a v x h

theorem getUint32_congr (m m' : Mem) (a : Nat)
    (h : ∀ k, k < 4 → m' (a + k) = m (a + k)) : getUint32 m' a = getUint32 m a := by
  have h0 := h 0 (by omega)
  have h1 := h 1 (by omega)
  have h2 := h 2 (by omega)
  have h3 := h 3 (by omega)
  simp only [Nat.add_zero] at h0
  simp only [getUint32, h0, h1, h2, h3]

theorem getUint32_setUint32_self (m : Mem) (a v : Nat) :
    getUint32 (setUint32 m a v) a = v % 4294967296 := by
  have h0 : setUint32 m a v a = v % 256 := by
    simpa using writeBytes_in [v, v / 256, v / 65536, v / 16777216] m a 0 (by simp)
  have h1 : setUint32 m a v (a + 1) = v / 256 % 256 := by
    simpa using writeBytes_in [v, v / 256, v / 65536, v / 16777216] m a 1 (by simp)
  have h2 : setUint32 m a v (a + 2) = v / 65536 % 256 := by
    simpa using writeBytes_in [v, v / 256, v / 65536, v / 16777216] m a 2 (by simp)
  have h3 : setUint32 m a v (a + 3) = v / 16777216 % 256 := by
    simpa using writeBytes_in [v, v / 256, v / 65536, v / 16777216] m a 3 (by simp)
  simp only [getUint32, h0, h1, h2, h3]
  omega

theorem getUint32_setUint32_ne (m : Mem) (a v b : Nat)
    (h : b + 4 ≤ a ∨ a + 4 ≤ b) : getUint32 (setUint32 m a v) b = getUint32 m b := by
  apply getUint32_congr
  intro k hk
  exact setUint32_out m a v (b + k) (by omega)

theorem getUint32_lt (m : Mem) (a : Nat) (h : ∀ k, k < 4 → m (a + k) < 256) :
    getUint32 m a < 4294967296 := by
  have h0 := h 0 (by omega)
  have h1 := h 1 (by omega)
  have h2 := h 2 (by omega)
  have h3 := h 3 (by omega)
  simp only [Nat.add_zero] at h0
  simp only [getUint32]
  omega

theorem getFloat64bits_setFloat64bits (m : Mem) (a bits : Nat) (h : bits < 18446744073709551616) :
    getFloat64bits (setFloat64bits m a bits) a = bits := by
  simp only [getFloat64bits, setFloat64bits]
  rw [getUint32_setUint32_ne _ _ _ _ (by omega), getUint32_setUint32_self,
    getUint32_setUint32_self]
  omega

theorem toUint32_lt (v : Int) : toUint32 v < 4294967296 := by
  simp only [toUint32]
  have h1 : v % 4294967296 < 4294967296 := Int.emod_lt_of_pos v (by norm_num)
  omega

theorem toUint32_mod (v : Int) : toUint32 v % 4294967296 = toUint32 v :=
  Nat.mod_eq_of_lt (toUint32_lt v)

/-! ### Value-table lemmas -/

theorem getD_setIdx_self {α : Type} (l : List α) (i : Nat) (a d d' : α) :
    (setIdx l i a d).getD i d' = a := by
  unfold setIdx
  split
  · next h => simp [List.getD, List.getElem?_set_self', List.getElem?_eq_getElem, h]
  · next h =>
      have hle : (l ++ List.replicate (i - l.length) d).length ≤ i := by simp; omega
      have e : i - (l ++ List.replicate (i - l.length) d).length = 0 := by simp; omega
      rw [List.getD_eq_getElem?_getD, List.getElem?_append_right hle, e]
      rfl

theorem idsLookup_mem (ids : List (JSValue × Nat)) (v : JSValue) (id : Nat)
    (h : idsLookup ids v = some id) :
    ∃ p, p ∈ ids ∧ sameValueZero p.1 v = true ∧ p.2 = id := by
  induction ids with
  | nil => simp [idsLookup] at h
  | cons p rest ih =>
      unfold idsLookup at h
      split at h
      · next hs => exact ⟨p, by simp, hs, by injection h⟩
      · obtain ⟨q, hq, h1, h2⟩ := ih h
        exact ⟨q, by simp [hq], h1, h2⟩

theorem sameValueZero_eq (k v : JSValue) (hv : v.isNumber = false)
    (h : sameValueZero k v = true) : k = v := by
  cases k <;> cases v <;> simp_all [sameValueZero, JSValue.isNumber]

theorem wfB_values (st : RefState) (hwf : wfB st = true) (p : JSValue × Nat)
    (hp : p ∈ st.ids) :
    st.values.getD p.2 .undefined = p.1 ∧ p.2 < st.values.length := by
  unfold wfB at hwf
  rw [Bool.and_eq_true] at hwf
  have h := List.all_eq_true.mp hwf.1 p hp
  rw [Bool.and_eq_true] at h
  exact ⟨by simpa using h.1, by simpa using h.2⟩

theorem wfB_pool (st : RefState) (hwf : wfB st = true) (i : Nat)
    (hi : i ∈ st.idPool) : i < st.values.length := by
  unfold wfB at hwf
  rw [Bool.and_eq_true] at hwf
  simpa using List.all_eq_true.mp hwf.2 i hi

theorem allocId_spec (st : RefState) (v : JSValue) (hwf : wfB st = true)
    (hv : v.isNumber = false) :
    (allocId st v).2.values.getD (allocId st v).1 .undefined = v ∧
    (allocId st v).1 ≤ st.values.length := by
  unfold allocId
  cases hl : idsLookup st.ids v with
  | some id =>
      obtain ⟨p, hp, hsvz, hpid⟩ := idsLookup_mem _ _ _ hl
      have hk := sameValueZero_eq p.1 v hv hsvz
      have hw := wfB_values st hwf p hp
      dsimp only
      constructor
      · rw [← hpid, hw.1, hk]
      · omega
  | none =>
      cases hpool : st.idPool with
      | nil =>
          dsimp only
          exact ⟨getD_setIdx_self _ _ _ _ _, Nat.le_refl _⟩
      | cons i rest =>
          have hi := wfB_pool st hwf i (by rw [hpool]; simp)
          dsimp only
          exact ⟨getD_setIdx_self _ _ _ _ _, Nat.le_of_lt hi⟩

theorem typeFlag_le (v : JSValue) : typeFlag v ≤ 4 := by
  cases v <;> simp [typeFlag]

theorem nanHead_or_typeFlag (v : JSValue) :
    nanHead ||| typeFlag v = 2146959360 + typeFlag v := by
  cases v <;> simp only [typeFlag] <;> decide

theorem nanbox_bits (H id : Nat) (h1 : 2146959360 ≤ H) (h2 : H ≤ 2146959364)
    (hid : id < 4294967296) :
    isNaNBits (id + 4294967296 * H) = true ∧ isZeroBits (id + 4294967296 * H) = false := by
  unfold isNaNBits isZeroBits
  constructor
  · rw [Bool.and_eq_true, decide_eq_true_eq, decide_eq_true_eq]
    constructor <;> omega
  · rw [Bool.or_eq_false_iff, decide_eq_false_iff_not, decide_eq_false_iff_not]
    constructor <;> omega

theorem storeValue_num (m : Mem) (st : RefState) (addr b : Nat)
    (hz : isZeroBits b = false) (hn : isNaNBits b = false) :
    storeValue m st addr (.num b) = (setFloat64bits m addr b, st) := by
  unfold storeValue
  simp [JSValue.isNumber, numIsZero, hz, numIsNaN, hn, numBits]

theorem storeValue_ref (m : Mem) (st : RefState) (addr : Nat) (v : JSValue)
    (hnum : (v.isNumber && !(numIsZero v)) = false) (hnotu : v ≠ .undefined) :
    storeValue m st addr v =
      (setUint32 (setUint32 m (addr + 4) (nanHead ||| typeFlag v)) addr (allocId st v).1,
       { (allocId st v).2 with
         goRefCounts := (allocId st v).2.goRefCounts.set (allocId st v).1
           (incCount ((allocId st v).2.goRefCounts.getD (allocId st v).1 (.fin 0))) }) := by
  unfold storeValue
  simp [hnum, beq_iff_eq, hnotu]

theorem storeValue_frame (m : Mem) (st : RefState) (addr : Nat) (v : JSValue) (x : Nat)
    (h : x < addr ∨ addr + 8 ≤ x) : (storeValue m st addr v).1 x = m x := by
  unfold storeValue
  split
  · split
    · show (setUint32 (setUint32 m (addr + 4) nanHead) addr 0) x = m x
      rw [setUint32_out _ _ _ _ (by omega), setUint32_out _ _ _ _ (by omega)]
    · show (setFloat64bits m addr (numBits v)) x = m x
      unfold setFloat64bits
      rw [setUint32_out _ _ _ _ (by omega), setUint32_out _ _ _ _ (by omega)]
  · split
    · show (setFloat64bits m addr 0) x = m x
      unfold setFloat64bits
      rw [setUint32_out _ _ _ _ (by omega), setUint32_out _ _ _ _ (by omega)]
    · show (setUint32 (setUint32 m (addr + 4) (nanHead ||| typeFlag v)) addr
          (allocId st v).1) x = m x
      rw [setUint32_out _ _ _ _ (by omega), setUint32_out _ _ _ _ (by omega)]

/-- C1: for every value `v` that is not NaN, not `undefined`, and not the
number 0, `loadValue(addr)` performed after `storeValue(addr, v)` returns
`v` — the identical reference for objects, strings, symbols and functions,
and a bit-equal float64 for numbers. -/
theorem C1_load_after_store_roundtrip (m : Mem) (st : RefState) (addr : Nat) (v : JSValue)
    (hwf : wfB st = true) (hlen : st.values.length < 4294967296)
    (hnan : numIsNaN v = false) (hnotu : v ≠ JSValue.undefined) (hzero : numIsZero v = false)
    (hbits : bitsOKb v = true) :
    loadValue (storeValue m st addr v).1 (storeValue m st addr v).2 addr = v := by
  by_cases hnum : v.isNumber = true
  · cases v with
    | num b =>
        have hb : b < 18446744073709551616 := by simpa [bitsOKb] using hbits
        have hz : isZeroBits b = false := by simpa [numIsZero] using hzero
        have hn : isNaNBits b = false := by simpa [numIsNaN] using hnan
        rw [storeValue_num m st addr b hz hn]
        unfold loadValue
        rw [getFloat64bits_setFloat64bits m addr b hb]
        simp [hz, hn]
    | undefined => simp [JSValue.isNumber] at hnum
    | null => simp [JSValue.isNumber] at hnum
    | boolVal b => simp [JSValue.isNumber] at hnum
    | str s => simp [JSValue.isNumber] at hnum
    | sym i => simp [JSValue.isNumber] at hnum
    | obj i => simp [JSValue.isNumber] at hnum
    | fn i => simp [JSValue.isNumber] at hnum
    | bytes i => simp [JSValue.isNumber] at hnum
  · rw [Bool.not_eq_true] at hnum
    rw [storeValue_ref m st addr v (by simp [hnum]) hnotu]
    have hspec := allocId_spec st v hwf hnum
    have hidlt : (allocId st v).1 < 4294967296 := by omega
    have hH1 : 2146959360 ≤ nanHead ||| typeFlag v := by
      rw [nanHead_or_typeFlag]; omega
    have hH2 : nanHead ||| typeFlag v ≤ 2146959364 := by
      rw [nanHead_or_typeFlag]
      have := typeFlag_le v
      omega
    have e1 : getUint32 (setUint32 (setUint32 m (addr + 4) (nanHead ||| typeFlag v)) addr
        (allocId st v).1) addr = (allocId st v).1 := by
      rw [getUint32_setUint32_self]
      exact Nat.mod_eq_of_lt hidlt
    have e2 : getUint32 (setUint32 (setUint32 m (addr + 4) (nanHead ||| typeFlag v)) addr
        (allocId st v).1) (addr + 4) = nanHead ||| typeFlag v := by
      rw [getUint32_setUint32_ne _ _ _ _ (by omega), getUint32_setUint32_self]
      exact Nat.mod_eq_of_lt (by omega)
    have hnb := nanbox_bits (nanHead ||| typeFlag v) (allocId st v).1 hH1 hH2 hidlt
    unfold loadValue getFloat64bits
    rw [e1, e2]
    simp only [hnb.1, hnb.2, Bool.not_true, if_false, Bool.false_eq_true]
    exact hspec.1

/-- Witness for C1 at a concrete input: storing the string `"a"` into a
fresh slot of the seeded table at address 64 and loading it back returns
the same string. -/
theorem C1_witness :
    wfB initRefState = true ∧
    loadValue (storeValue (fun _ => 0) initRefState 64 (.str "a")).1
      (storeValue (fun _ => 0) initRefState 64 (.str "a")).2 64 = .str "a" :=
  ⟨by decide,
   C1_load_after_store_roundtrip (fun _ => 0) initRefState 64 (.str "a")
     (by decide) (by decide) (by decide) (by decide) (by decide) (by decide)⟩

/-! ### removeRef lemmas -/

theorem set_getD_eq {α : Type} (l : List α) (i : Nat) (x d : α)
    (h : l.getD i d = x) (hi : i < l.length) : l.set i x = l := by
  induction l generalizing i with
  | nil => simp at hi
  | cons a t ih =>
      cases i with
      | zero =>
          have : a = x := by simpa using h
          simp [this]
      | succ n =>
          have h2 : t.getD n d = x := by simpa using h
          have : t.set n x = t := ih n h2 (by simpa using hi)
          simp [this]

theorem removeRef_of_inf (st : RefState) (id : Nat)
    (h : st.goRefCounts.getD id (.fin 0) = .inf) : removeRef st id = st := by
  have hi : id < st.goRefCounts.length := by
    by_contra hc
    push_neg at hc
    rw [List.getD_eq_default _ _ hc] at h
    cases h
  unfold removeRef
  rw [h]
  simp only [decCount]
  rw [if_neg (by simp)]
  rw [set_getD_eq st.goRefCounts id .inf (.fin 0) h hi]

/-- C4: the seeded reference ids are never collected: an infinite count
stays infinite and positive, so `removeRef` (and hence `finalizeRef`) on
them leaves the table slot, the inverse map and the free-list unchanged,
for any number of calls. -/
theorem C4_seeded_never_collected :
    (∀ (st : RefState) (id : Nat), st.goRefCounts.getD id (.fin 0) = .inf →
      removeRef st id = st) ∧
    (∀ (id n : Nat), id ≤ 6 →
      Nat.iterate (fun s => removeRef s id) n initRefState = initRefState) ∧
    (∀ (w : World) (sp : Nat),
      w.refs.goRefCounts.getD (getUint32 w.mem (sp % 4294967296 + 8)) (.fin 0) = .inf →
      finalizeRefImport w sp = w) := by
  refine ⟨removeRef_of_inf, ?_, ?_⟩
  · intro id n hid
    induction n with
    | zero => rfl
    | succ n ih =>
        rw [Function.iterate_succ_apply]
        have hstep : removeRef initRefState id = initRefState := by
          apply removeRef_of_inf
          interval_cases id <;> decide
        rw [hstep, ih]
  · intro w sp h
    unfold finalizeRefImport
    dsimp only
    rw [removeRef_of_inf _ _ h]

/-- Witness for C4: `removeRef` on seeded id 0 and five iterated calls on
seeded id 3 are no-ops on the initial state. -/
theorem C4_witness :
    removeRef initRefState 0 = initRefState ∧
    Nat.iterate (fun s => removeRef s 3) 5 initRefState = initRefState :=
  ⟨C4_seeded_never_collected.1 initRefState 0 (by decide),
   C4_seeded_never_collected.2.1 3 5 (by decide)⟩

/-- C10: `storeValue(addr, 0)` does not use the direct float64 encoding:
it writes the NaN box `(low = 1, high = nanHead)` — id 1 is the seeded
number 0 and the type flag is 0 — leaves the table exactly as seeded (the
`Infinity` count absorbs the increment, no id is allocated), and a
subsequent `loadValue(addr)` returns the number 0. -/
theorem C10_storeValue_zero (m : Mem) (addr : Nat) :
    (storeValue m initRefState addr (.num 0)).2 = initRefState ∧
    getUint32 (storeValue m initRefState addr (.num 0)).1 addr = 1 ∧
    getUint32 (storeValue m initRefState addr (.num 0)).1 (addr + 4) = 2146959360 ∧
    loadValue (storeValue m initRefState addr (.num 0)).1
      (storeValue m initRefState addr (.num 0)).2 addr = .num 0 := by
  have halloc : allocId initRefState (.num 0) = (1, initRefState) := by decide
  have hH : nanHead ||| typeFlag (.num 0) = 2146959360 := by decide
  rw [storeValue_ref m initRefState addr (.num 0) (by decide) (by decide)]
  rw [halloc, hH]
  have hst : ({ initRefState with
      goRefCounts := initRefState.goRefCounts.set 1
        (incCount (initRefState.goRefCounts.getD 1 (.fin 0))) } : RefState)
      = initRefState := by decide
  dsimp only
  rw [hst]
  have e1 : getUint32 (setUint32 (setUint32 m (addr + 4) 2146959360) addr 1) addr = 1 := by
    rw [getUint32_setUint32_self]
  have e2 : getUint32 (setUint32 (setUint32 m (addr + 4) 2146959360) addr 1) (addr + 4)
      = 2146959360 := by
    rw [getUint32_setUint32_ne _ _ _ _ (by omega), getUint32_setUint32_self]
  refine ⟨rfl, e1, e2, ?_⟩
  have hnb := nanbox_bits 2146959360 1 (by omega) (by omega) (by omega)
  unfold loadValue getFloat64bits
  rw [e1, e2]
  simp only [hnb.1, hnb.2, Bool.not_true, if_false, Bool.false_eq_true]
  decide

/-- C7: `setInt64(a, 4294967297)` writes the bytes
`01 00 00 00 01 00 00 00`; `getInt64` of `FF FF FF FF FF FF FF FF` is
`-1`; in general `setInt64` stores the low 32 bits at `addr` and
`floor(v / 2^32)` at `addr + 4`, and `getInt64` returns the unsigned low
word plus the sign-extended high word times `2^32`. -/
theorem C7_int64_bit_exactness :
    (∀ (m : Mem) (a : Nat),
      setInt64 m a 4294967297 a = 1 ∧
      setInt64 m a 4294967297 (a + 1) = 0 ∧
      setInt64 m a 4294967297 (a + 2) = 0 ∧
      setInt64 m a 4294967297 (a + 3) = 0 ∧
      setInt64 m a 4294967297 (a + 4) = 1 ∧
      setInt64 m a 4294967297 (a + 5) = 0 ∧
      setInt64 m a 4294967297 (a + 6) = 0 ∧
      setInt64 m a 4294967297 (a + 7) = 0) ∧
    (∀ (m : Mem) (a : Nat),
      getInt64 (writeBytes m a [255, 255, 255, 255, 255, 255, 255, 255]) a = -1) ∧
    (∀ (m : Mem) (a : Nat) (v : Int),
      getUint32 (setInt64 m a v) a = toUint32 v ∧
      getUint32 (setInt64 m a v) (a + 4) = toUint32 (Int.fdiv v 4294967296)) ∧
    (∀ (m : Mem) (a : Nat),
      getInt64 m a = (getUint32 m a : Int) + toInt32 (getUint32 m (a + 4)) * 4294967296) := by
  refine ⟨?_, ?_, ?_, ?_⟩
  · intro m a
    unfold setInt64
    rw [show toUint32 4294967297 = 1 from by decide,
      show toUint32 (Int.fdiv 4294967297 4294967296) = 1 from by decide]
    refine ⟨?_, ?_, ?_, ?_, ?_, ?_, ?_, ?_⟩
    · rw [setUint32_out _ _ _ _ (by omega)]
      simpa using writeBytes_in [1, 1 / 256, 1 / 65536, 1 / 16777216] m a 0 (by simp)
    · rw [setUint32_out _ _ _ _ (by omega)]
      simpa using writeBytes_in [1, 1 / 256, 1 / 65536, 1 / 16777216] m a 1 (by simp)
    · rw [setUint32_out _ _ _ _ (by omega)]
      simpa using writeBytes_in [1, 1 / 256, 1 / 65536, 1 / 16777216] m a 2 (by simp)
    · rw [setUint32_out _ _ _ _ (by omega)]
      simpa using writeBytes_in [1, 1 / 256, 1 / 65536, 1 / 16777216] m a 3 (by simp)
    · simpa using writeBytes_in [1, 1 / 256, 1 / 65536, 1 / 16777216]
        (setUint32 m a 1) (a + 4) 0 (by simp)
    · rw [show a + 5 = a + 4 + 1 from by omega]
      simpa using writeBytes_in [1, 1 / 256, 1 / 65536, 1 / 16777216]
        (setUint32 m a 1) (a + 4) 1 (by simp)
    · rw [show a + 6 = a + 4 + 2 from by omega]
      simpa using writeBytes_in [1, 1 / 256, 1 / 65536, 1 / 16777216]
        (setUint32 m a 1) (a + 4) 2 (by simp)
    · rw [show a + 7 = a + 4 + 3 from by omega]
      simpa using writeBytes_in [1, 1 / 256, 1 / 65536, 1 / 16777216]
        (setUint32 m a 1) (a + 4) 3 (by simp)
  · intro m a
    have hb : ∀ k, k < 8 →
        writeBytes m a [255, 255, 255, 255, 255, 255, 255, 255] (a + k) = 255 := by
      intro k hk
      rw [writeBytes_in _ _ _ _ (by simpa using hk)]
      interval_cases k <;> rfl
    have e0 : writeBytes m a [255, 255, 255, 255, 255, 255, 255, 255] a = 255 := by
      simpa using hb 0 (by omega)
    have lo : getUint32 (writeBytes m a [255, 255, 255, 255, 255, 255, 255, 255]) a
        = 4294967295 := by
      unfold getUint32
      rw [e0, hb 1 (by omega), hb 2 (by omega), hb 3 (by omega)]
    have hi4 : getUint32 (writeBytes m a [255, 255, 255, 255, 255, 255, 255, 255]) (a + 4)
        = 4294967295 := by
      unfold getUint32
      rw [show a + 4 + 1 = a + 5 from by omega, show a + 4 + 2 = a + 6 from by omega,
        show a + 4 + 3 = a + 7 from by omega,
        hb 4 (by omega), hb 5 (by omega), hb 6 (by omega), hb 7 (by omega)]
    unfold getInt64 getInt32
    rw [lo, hi4]
    decide
  · intro m a v
    unfold setInt64
    constructor
    · rw [getUint32_setUint32_ne _ _ _ _ (by omega), getUint32_setUint32_self, toUint32_mod]
    · rw [getUint32_setUint32_self, toUint32_mod]
  · intro m a
    rfl

/-! ### Import-surface lemmas -/

theorem setInt64_out (m : Mem) (a : Nat) (v : Int) (x : Nat)
    (h : x < a ∨ a + 8 ≤ x) : setInt64 m a v x = m x := by
  unfold setInt64
  rw [setUint32_out _ _ _ _ (by omega), setUint32_out _ _ _ _ (by omega)]

theorem getInt64_setInt64 (m : Mem) (a : Nat) (v : Int) (h0 : 0 ≤ v)
    (h1 : v < 9223372036854775808) : getInt64 (setInt64 m a v) a = v := by
  have lo : getUint32 (setInt64 m a v) a = toUint32 v := by
    unfold setInt64
    rw [getUint32_setUint32_ne _ _ _ _ (by omega), getUint32_setUint32_self, toUint32_mod]
  have hi : getUint32 (setInt64 m a v) (a + 4) = toUint32 (Int.fdiv v 4294967296) := by
    unfold setInt64
    rw [getUint32_setUint32_self, toUint32_mod]
  unfold getInt64 getInt32
  rw [lo, hi]
  unfold toUint32 toInt32
  rw [Int.fdiv_eq_ediv _ (by norm_num)]
  split <;> omega

theorem getD_take (l : List Nat) (n k : Nat) (h : k < n) :
    (l.take n).getD k 0 = l.getD k 0 := by
  simp [List.getD_eq_getElem?_getD, List.getElem?_take, h]

theorem getInt64_setUint8_out (m : Mem) (a v b : Nat) (h : b + 8 ≤ a ∨ a < b) :
    getInt64 (setUint8 m a v) b = getInt64 m b := by
  unfold getInt64 getInt32
  rw [getUint32_congr m _ b (fun k hk => setUint8_out _ _ _ _ (by omega)),
    getUint32_congr m _ (b + 4) (fun k hk => setUint8_out _ _ _ _ (by omega))]

/-- C2 counterexample: with a host whose refreshed `getsp()` reports 200,
`valueIndex` invoked at pre-call `sp = 100` deposits its result box — the
NaN box `(id 2, nanHead)` of `null` — at the stale `100 + 24 = 124`, while
both words at the refreshed `getsp() + 24 = 224` remain the untouched
zeros: the claim that `valueIndex` stores at the refreshed `getsp() + 24`
is false on the code. -/
theorem C2_counterexample :
    getUint32 (valueIndexImport cexHost zeroWorld 100).mem 124 = 2 ∧
    getUint32 (valueIndexImport cexHost zeroWorld 100).mem 128 = 2146959360 ∧
    getUint32 (valueIndexImport cexHost zeroWorld 100).mem (cexHost.getsp + 24) = 0 ∧
    getUint32 (valueIndexImport cexHost zeroWorld 100).mem (cexHost.getsp + 28) = 0 := by
  refine ⟨?_, ?_, ?_, ?_⟩ <;> decide

/-- C2 amended: `valueGet` re-reads `sp` via `getsp()` after the
`Reflect.get` and stores its result at the refreshed `getsp() + 32`
(touching no memory outside that 8-byte box beyond what the re-entrant
call itself did), while `valueIndex` never re-reads `sp` and stores its
result at the stale pre-call `sp + 24`; `valueSet`, `valueDelete` and
`valueSetIndex` perform only the reflective operation and write no result
back. -/
theorem C2_amended_sp_refresh (h : Host) (w : World) (sp : Nat) :
    ((valueGetImport h w sp).mem =
      (storeValue (h.reflectGet w (loadValue w.mem w.refs (sp % 4294967296 + 8))
          (loadStringBytes w.mem (sp % 4294967296 + 16))).1.mem
        (h.reflectGet w (loadValue w.mem w.refs (sp % 4294967296 + 8))
          (loadStringBytes w.mem (sp % 4294967296 + 16))).1.refs
        (h.getsp % 4294967296 + 32)
        (h.reflectGet w (loadValue w.mem w.refs (sp % 4294967296 + 8))
          (loadStringBytes w.mem (sp % 4294967296 + 16))).2).1) ∧
    (∀ x, x < h.getsp % 4294967296 + 32 ∨ h.getsp % 4294967296 + 40 ≤ x →
      (valueGetImport h w sp).mem x =
        (h.reflectGet w (loadValue w.mem w.refs (sp % 4294967296 + 8))
          (loadStringBytes w.mem (sp % 4294967296 + 16))).1.mem x) ∧
    ((valueIndexImport h w sp).mem =
      (storeValue (h.reflectGetIndex w (loadValue w.mem w.refs (sp % 4294967296 + 8))
          (getInt64 w.mem (sp % 4294967296 + 16))).1.mem
        (h.reflectGetIndex w (loadValue w.mem w.refs (sp % 4294967296 + 8))
          (getInt64 w.mem (sp % 4294967296 + 16))).1.refs
        (sp % 4294967296 + 24)
        (h.reflectGetIndex w (loadValue w.mem w.refs (sp % 4294967296 + 8))
          (getInt64 w.mem (sp % 4294967296 + 16))).2).1) ∧
    (∀ x, x < sp % 4294967296 + 24 ∨ sp % 4294967296 + 32 ≤ x →
      (valueIndexImport h w sp).mem x =
        (h.reflectGetIndex w (loadValue w.mem w.refs (sp % 4294967296 + 8))
          (getInt64 w.mem (sp % 4294967296 + 16))).1.mem x) ∧
    valueSetImport h w sp =
      h.reflectSet w (loadValue w.mem w.refs (sp % 4294967296 + 8))
        (loadStringBytes w.mem (sp % 4294967296 + 16))
        (loadValue w.mem w.refs (sp % 4294967296 + 32)) ∧
    valueDeleteImport h w sp =
      h.reflectDelete w (loadValue w.mem w.refs (sp % 4294967296 + 8))
        (loadStringBytes w.mem (sp % 4294967296 + 16)) ∧
    valueSetIndexImport h w sp =
      h.reflectSetIndex w (loadValue w.mem w.refs (sp % 4294967296 + 8))
        (getInt64 w.mem (sp % 4294967296 + 16))
        (loadValue w.mem w.refs (sp % 4294967296 + 24)) := by
  refine ⟨rfl, ?_, rfl, ?_, rfl, rfl, rfl⟩
  · intro x hx
    exact storeValue_frame _ _ (h.getsp % 4294967296 + 32) _ x (by omega)
  · intro x hx
    exact storeValue_frame _ _ (sp % 4294967296 + 24) _ x (by omega)

/-- Witness for the amended C2 at a concrete input: the byte just below
the stale result box of `valueIndex` is untouched. -/
theorem C2_amended_witness :
    (valueIndexImport cexHost zeroWorld 100).mem 123 = zeroWorld.mem 123 := by
  have h := (C2_amended_sp_refresh cexHost zeroWorld 100).2.2.2.1 123 (by decide)
  exact h.trans (by decide)

/-- C6: `copyBytesToGo` and `copyBytesToJS` require a typed byte array as
the counterpart operand.  On success exactly `min(dst.len, src.len)` bytes
are copied, that count is stored as an int64 at `sp+40` and a 1 success
byte at `sp+48`; otherwise a 0 success byte is written at `sp+48`, no
bytes are copied, and the import returns early. -/
theorem C6_copyBytes (w : World) (sp : Nat) (hsp : sp < 4294967296) :
    (∀ id, loadValue w.mem w.refs (sp + 32) = .bytes id →
      min ((getInt64 w.mem (sp + 16)).toNat) (w.heap id).length < 9223372036854775808 →
      getInt64 (copyBytesToGoImport w sp).mem (sp + 40) =
        (min ((getInt64 w.mem (sp + 16)).toNat) (w.heap id).length : Nat) ∧
      (copyBytesToGoImport w sp).mem (sp + 48) = 1 ∧
      (copyBytesToGoImport w sp).refs = w.refs ∧
      (copyBytesToGoImport w sp).heap = w.heap ∧
      ((getInt64 w.mem (sp + 8)).toNat +
          min ((getInt64 w.mem (sp + 16)).toNat) (w.heap id).length ≤ sp + 40 ∨
        sp + 49 ≤ (getInt64 w.mem (sp + 8)).toNat →
        ∀ k, k < min ((getInt64 w.mem (sp + 16)).toNat) (w.heap id).length →
          (copyBytesToGoImport w sp).mem ((getInt64 w.mem (sp + 8)).toNat + k) =
            (w.heap id).getD k 0 % 256)) ∧
    (isByteArray (loadValue w.mem w.refs (sp + 32)) = false →
      copyBytesToGoImport w sp = { w with mem := setUint8 w.mem (sp + 48) 0 }) ∧
    (∀ id, loadValue w.mem w.refs (sp + 8) = .bytes id →
      min ((w.heap id).length) ((getInt64 w.mem (sp + 24)).toNat) < 9223372036854775808 →
      getInt64 (copyBytesToJSImport w sp).mem (sp + 40) =
        (min ((w.heap id).length) ((getInt64 w.mem (sp + 24)).toNat) : Nat) ∧
      (copyBytesToJSImport w sp).mem (sp + 48) = 1 ∧
      (copyBytesToJSImport w sp).refs = w.refs ∧
      (copyBytesToJSImport w sp).heap id =
        (readBytes w.mem ((getInt64 w.mem (sp + 16)).toNat)
            ((getInt64 w.mem (sp + 24)).toNat)).take (w.heap id).length ++
          (w.heap id).drop (min ((w.heap id).length) ((getInt64 w.mem (sp + 24)).toNat)) ∧
      (∀ x, x < sp + 40 ∨ sp + 49 ≤ x →
        (copyBytesToJSImport w sp).mem x = w.mem x)) ∧
    (isByteArray (loadValue w.mem w.refs (sp + 8)) = false →
      copyBytesToJSImport w sp = { w with mem := setUint8 w.mem (sp + 48) 0 }) := by
  have hsp' : sp % 4294967296 = sp := Nat.mod_eq_of_lt hsp
  refine ⟨?_, ?_, ?_, ?_⟩
  · intro id hid hcnt
    unfold copyBytesToGoImport loadSlice
    dsimp only
    rw [hsp', hid]
    dsimp only
    rw [show sp + 8 + 8 = sp + 16 from rfl]
    have hlen : ((w.heap id).take (getInt64 w.mem (sp + 16)).toNat).length =
        min ((getInt64 w.mem (sp + 16)).toNat) (w.heap id).length := List.length_take _ _
    refine ⟨?_, ?_, rfl, rfl, ?_⟩
    · rw [getInt64_setUint8_out _ _ _ _ (by omega),
        getInt64_setInt64 _ _ _ (by positivity) (by rw [hlen]; exact_mod_cast hcnt), hlen]
    · exact wr_eq _ _ _
    · intro hdis k hk
      rw [setUint8_out _ _ _ _ (by omega), setInt64_out _ _ _ _ (by omega)]
      rw [writeBytes_in _ _ _ _ (by rw [hlen]; omega)]
      rw [getD_take _ _ _ (by omega)]
  · intro hnb
    unfold copyBytesToGoImport loadSlice
    dsimp only
    rw [hsp']
    cases hv : loadValue w.mem w.refs (sp + 32) with
    | bytes id => rw [hv] at hnb; simp [isByteArray] at hnb
    | num b => rfl
    | undefined => rfl
    | null => rfl
    | boolVal b => rfl
    | str s => rfl
    | sym i => rfl
    | obj i => rfl
    | fn i => rfl
  · intro id hid hcnt
    unfold copyBytesToJSImport loadSlice
    dsimp only
    rw [hsp', hid]
    dsimp only
    rw [show sp + 16 + 8 = sp + 24 from rfl]
    have hlr : (readBytes w.mem ((getInt64 w.mem (sp + 16)).toNat)
        ((getInt64 w.mem (sp + 24)).toNat)).length = (getInt64 w.mem (sp + 24)).toNat := by
      simp [readBytes]
    have hlen : ((readBytes w.mem ((getInt64 w.mem (sp + 16)).toNat)
        ((getInt64 w.mem (sp + 24)).toNat)).take (w.heap id).length).length =
        min ((w.heap id).length) ((getInt64 w.mem (sp + 24)).toNat) := by
      rw [List.length_take, hlr]
    refine ⟨?_, ?_, rfl, ?_, ?_⟩
    · rw [getInt64_setUint8_out _ _ _ _ (by omega),
        getInt64_setInt64 _ _ _ (by positivity) (by rw [hlen]; exact_mod_cast hcnt), hlen]
    · exact wr_eq _ _ _
    · simp [hlen]
    · intro x hx
      rw [setUint8_out _ _ _ _ (by omega), setInt64_out _ _ _ _ (by omega)]
  · intro hnb
    unfold copyBytesToJSImport loadSlice
    dsimp only
    rw [hsp']
    cases hv : loadValue w.mem w.refs (sp + 8) with
    | bytes id => rw [hv] at hnb; simp [isByteArray] at hnb
    | num b => rfl
    | undefined => rfl
    | null => rfl
    | boolVal b => rfl
    | str s => rfl
    | sym i => rfl
    | obj i => rfl
    | fn i => rfl

/-- Witness for C6 at a concrete input: `copyBytesToGo` with destination
slice `(2000, len 3)` and source byte array `[1,2,3,4,5]` copies 3 bytes,
stores count 3 at `sp+40` and success 1 at `sp+48`. -/
theorem C6_witness :
    getInt64 (copyBytesToGoImport w6 64).mem 104 = 3 ∧
    (copyBytesToGoImport w6 64).mem 112 = 1 ∧
    (copyBytesToGoImport w6 64).mem 2001 = 2 := by
  have h := (C6_copyBytes w6 64 (by decide)).1 7 (by decide) (by decide)
  refine ⟨?_, ?_, ?_⟩
  · have e := h.1
    rw [show ((getInt64 w6.mem (64 + 16)).toNat ⊓ (w6.heap 7).length : Nat) = 3 from by decide]
      at e
    exact e
  · exact h.2.1
  · have e := h.2.2.2.2 (by decide) 1 (by decide)
    rw [show (getInt64 w6.mem (64 + 8)).toNat + 1 = 2001 from by decide] at e
    rw [e]
    decide

/-! ### Argument-writer lemmas -/

theorem alignUp8_ge (o : Nat) : o ≤ alignUp8 o := by
  unfold alignUp8
  split <;> omega

theorem alignUp8_mod (o : Nat) : alignUp8 o % 8 = 0 := by
  unfold alignUp8
  split <;> omega

theorem endOff_ge (ss : List String) (off : Nat) : off ≤ endOff ss off := by
  induction ss generalizing off with
  | nil => exact Nat.le_refl off
  | cons s ss ih =>
      unfold endOff
      have h1 := alignUp8_ge (off + (argBytes s).length)
      have h2 := ih (alignUp8 (off + (argBytes s).length))
      omega

theorem endOff_mod (ss : List String) (off : Nat) (h : off % 8 = 0) :
    endOff ss off % 8 = 0 := by
  induction ss generalizing off with
  | nil => exact h
  | cons s ss ih => exact ih _ (alignUp8_mod _)

theorem endOff_append (l1 l2 : List String) (off : Nat) :
    endOff (l1 ++ l2) off = endOff l2 (endOff l1 off) := by
  induction l1 generalizing off with
  | nil => rfl
  | cons s ss ih => exact ih _

theorem ptrsOf_length (ss : List String) (off : Nat) :
    (ptrsOf ss off).length = ss.length := by
  induction ss generalizing off with
  | nil => rfl
  | cons s ss ih => simpa [ptrsOf] using ih _

theorem ptrsOf_append (l1 l2 : List String) (off : Nat) :
    ptrsOf (l1 ++ l2) off = ptrsOf l1 off ++ ptrsOf l2 (endOff l1 off) := by
  induction l1 generalizing off with
  | nil => rfl
  | cons s ss ih => simp [ptrsOf, endOff, ih]

theorem getD_append_lt (l1 l2 : List Nat) (n : Nat) (h : n < l1.length) :
    (l1 ++ l2).getD n 0 = l1.getD n 0 := by
  simp [List.getD_eq_getElem?_getD, List.getElem?_append, h]

theorem getD_append_ge (l1 l2 : List Nat) (n : Nat) (h : l1.length ≤ n) :
    (l1 ++ l2).getD n 0 = l2.getD (n - l1.length) 0 := by
  simp [List.getD_eq_getElem?_getD, List.getElem?_append_right h]

theorem ptrsOf_spec (ss : List String) (off : Nat) (h8 : off % 8 = 0) :
    ∀ i, i < ss.length →
      off ≤ (ptrsOf ss off).getD i 0 ∧
      (ptrsOf ss off).getD i 0 % 8 = 0 ∧
      (ptrsOf ss off).getD i 0 + (argBytes (ss.getD i "")).length ≤ endOff ss off := by
  induction ss generalizing off with
  | nil => intro i hi; simp at hi
  | cons s ss ih =>
      intro i hi
      cases i with
      | zero =>
          refine ⟨Nat.le_refl _, h8, ?_⟩
          show off + (argBytes s).length ≤ endOff (s :: ss) off
          unfold endOff
          have h1 := alignUp8_ge (off + (argBytes s).length)
          have h2 := endOff_ge ss (alignUp8 (off + (argBytes s).length))
          omega
      | succ i =>
          have hrec := ih (alignUp8 (off + (argBytes s).length)) (alignUp8_mod _) i
            (by simpa using hi)
          have hoff : off ≤ alignUp8 (off + (argBytes s).length) := by
            have := alignUp8_ge (off + (argBytes s).length)
            omega
          simp only [ptrsOf, endOff, List.getD_cons_succ]
          exact ⟨by omega, hrec.2.1, hrec.2.2⟩

theorem strFold_off (ss : List String) (m : Mem) (off : Nat) (ps : List Nat) :
    (ss.foldl strPtrStep (m, off, ps)).2.1 = endOff ss off := by
  induction ss generalizing m off ps with
  | nil => rfl
  | cons s ss ih => exact ih _ _ _

theorem strFold_ptrs (ss : List String) (m : Mem) (off : Nat) (ps : List Nat) :
    (ss.foldl strPtrStep (m, off, ps)).2.2 = ps ++ ptrsOf ss off := by
  induction ss generalizing m off ps with
  | nil => simp [ptrsOf]
  | cons s ss ih =>
      simp only [List.foldl_cons, ptrsOf]
      rw [ih]
      simp [strPtrStep]

theorem strFold_mem_indep (ss : List String) (m : Mem) (off : Nat) (ps ps' : List Nat) :
    (ss.foldl strPtrStep (m, off, ps)).1 = (ss.foldl strPtrStep (m, off, ps')).1 := by
  induction ss generalizing m off ps ps' with
  | nil => rfl
  | cons s ss ih => exact ih _ _ _ _

theorem strFold_frame (ss : List String) (m : Mem) (off : Nat) (ps : List Nat) (x : Nat)
    (hx : x < off) : (ss.foldl strPtrStep (m, off, ps)).1 x = m x := by
  induction ss generalizing m off ps with
  | nil => rfl
  | cons s ss ih =>
      simp only [List.foldl_cons]
      have h1 := alignUp8_ge (off + (argBytes s).length)
      rw [show (strPtrStep (m, off, ps) s) = (writeBytes m off (argBytes s),
          alignUp8 (off + (argBytes s).length), ps ++ [off]) from rfl]
      rw [ih _ _ _ (by omega)]
      exact writeBytes_out _ _ _ _ (by omega)

theorem strFold_content (ss : List String) (m : Mem) (off : Nat) (ps : List Nat) :
    ∀ i, i < ss.length → ∀ k, k < (argBytes (ss.getD i "")).length →
      (ss.foldl strPtrStep (m, off, ps)).1 ((ptrsOf ss off).getD i 0 + k) =
        (argBytes (ss.getD i "")).getD k 0 % 256 := by
  induction ss generalizing m off ps with
  | nil => intro i hi; simp at hi
  | cons s ss ih =>
      intro i hi k hk
      cases i with
      | zero =>
          simp only [List.getD_cons_zero, List.foldl_cons, ptrsOf] at hk ⊢
          rw [show (strPtrStep (m, off, ps) s) = (writeBytes m off (argBytes s),
              alignUp8 (off + (argBytes s).length), ps ++ [off]) from rfl]
          have h1 := alignUp8_ge (off + (argBytes s).length)
          rw [strFold_frame _ _ _ _ _ (by omega)]
          exact writeBytes_in _ _ _ _ hk
      | succ i =>
          simp only [List.getD_cons_succ, List.foldl_cons, ptrsOf] at hk ⊢
          exact ih _ _ _ i (by simpa using hi) k hk

theorem ptrFold_off (ps : List Nat) (m : Mem) (off : Nat) :
    (ps.foldl ptrSlotStep (m, off)).2 = off + 8 * ps.length := by
  induction ps generalizing m off with
  | nil => simp
  | cons p ps ih =>
      simp only [List.foldl_cons]
      rw [show (ptrSlotStep (m, off) p) =
          (setUint32 (setUint32 m off p) (off + 4) 0, off + 8) from rfl]
      rw [ih]
      simp
      omega

theorem ptrFold_frame (ps : List Nat) (m : Mem) (off : Nat) (x : Nat) (hx : x < off) :
    (ps.foldl ptrSlotStep (m, off)).1 x = m x := by
  induction ps generalizing m off with
  | nil => rfl
  | cons p ps ih =>
      simp only [List.foldl_cons]
      rw [show (ptrSlotStep (m, off) p) =
          (setUint32 (setUint32 m off p) (off + 4) 0, off + 8) from rfl]
      rw [ih _ _ (by omega)]
      rw [setUint32_out _ _ _ _ (by omega), setUint32_out _ _ _ _ (by omega)]

theorem ptrFold_slots (ps : List Nat) (m : Mem) (off : Nat) :
    ∀ j, j < ps.length →
      getUint32 (ps.foldl ptrSlotStep (m, off)).1 (off + 8 * j) = ps.getD j 0 % 4294967296 ∧
      getUint32 (ps.foldl ptrSlotStep (m, off)).1 (off + 8 * j + 4) = 0 := by
  induction ps generalizing m off with
  | nil => intro j hj; simp at hj
  | cons p ps ih =>
      intro j hj
      cases j with
      | zero =>
          simp only [List.foldl_cons, Nat.mul_zero, Nat.add_zero, List.getD_cons_zero]
          rw [show (ptrSlotStep (m, off) p) =
              (setUint32 (setUint32 m off p) (off + 4) 0, off + 8) from rfl]
          constructor
          · rw [getUint32_congr (setUint32 (setUint32 m off p) (off + 4) 0) _ off
              (fun k hk => ptrFold_frame _ _ _ _ (by omega))]
            rw [getUint32_setUint32_ne _ _ _ _ (by omega), getUint32_setUint32_self]
          · rw [getUint32_congr (setUint32 (setUint32 m off p) (off + 4) 0) _ (off + 4)
              (fun k hk => ptrFold_frame _ _ _ _ (by omega))]
            rw [getUint32_setUint32_self]
      | succ j =>
          simp only [List.foldl_cons, List.getD_cons_succ]
          rw [show (ptrSlotStep (m, off) p) =
              (setUint32 (setUint32 m off p) (off + 4) 0, off + 8) from rfl]
          have hrec := ih (setUint32 (setUint32 m off p) (off + 4) 0) (off + 8) j
            (by simpa using hj)
          rw [show off + 8 * (j + 1) = off + 8 + 8 * j from by omega]
          exact hrec

/-! ### Sort lemmas -/

theorem lexLe_total (a b : List Nat) : lexLe a b = true ∨ lexLe b a = true := by
  induction a generalizing b with
  | nil => exact Or.inl rfl
  | cons x xs ih =>
      cases b with
      | nil => exact Or.inr rfl
      | cons y ys =>
          by_cases hxy : x < y
          · left; simp [lexLe, hxy]
          · by_cases hyx : y < x
            · right; simp [lexLe, hyx]
            · rcases ih ys with h | h
              · left; simpa [lexLe, hxy, hyx] using h
              · right; simpa [lexLe, hxy, hyx] using h

theorem lexLe_trans (a b c : List Nat) (h1 : lexLe a b = true) (h2 : lexLe b c = true) :
    lexLe a c = true := by
  induction a generalizing b c with
  | nil => rfl
  | cons x xs ih =>
      cases b with
      | nil => simp [lexLe] at h1
      | cons y ys =>
          cases c with
          | nil => simp [lexLe] at h2
          | cons z zs =>
              simp only [lexLe] at h1 h2 ⊢
              split_ifs at h1 h2 ⊢ <;>
                first
                  | rfl
                  | omega
                  | exact ih ys zs h1 h2

theorem strLe_total (a b : String) : strLe a b = true ∨ strLe b a = true :=
  lexLe_total _ _

theorem strLe_trans (a b c : String) (h1 : strLe a b = true) (h2 : strLe b c = true) :
    strLe a c = true :=
  lexLe_trans _ _ _ h1 h2

theorem insertSorted_perm (s : String) (l : List String) :
    (insertSorted s l).Perm (s :: l) := by
  induction l with
  | nil => exact List.Perm.refl _
  | cons t ts ih =>
      unfold insertSorted
      split
      · exact List.Perm.refl _
      · exact (ih.cons t).trans (List.Perm.swap s t ts)

theorem sortStrings_perm (l : List String) : (sortStrings l).Perm l := by
  induction l with
  | nil => exact List.Perm.refl _
  | cons s ss ih =>
      exact (insertSorted_perm s (sortStrings ss)).trans (ih.cons s)

theorem insertSorted_sorted (s : String) (l : List String)
    (h : l.Pairwise (fun a b => strLe a b = true)) :
    (insertSorted s l).Pairwise (fun a b => strLe a b = true) := by
  induction l with
  | nil => simp [insertSorted]
  | cons t ts ih =>
      rw [List.pairwise_cons] at h
      unfold insertSorted
      split
      · next hst =>
          rw [List.pairwise_cons]
          refine ⟨?_, List.pairwise_cons.mpr h⟩
          intro u hu
          rcases List.mem_cons.mp hu with h0 | hmem
          · exact h0 ▸ hst
          · exact strLe_trans s t u hst (h.1 u hmem)
      · next hst =>
          rw [List.pairwise_cons]
          constructor
          · intro u hu
            have hu2 : u ∈ s :: ts := (insertSorted_perm s ts).mem_iff.mp hu
            rcases List.mem_cons.mp hu2 with h0 | hmem
            · rcases strLe_total s t with hts | hts
              · exact absurd hts hst
              · exact h0 ▸ hts
            · exact h.1 u hmem
          · exact ih h.2

theorem sortStrings_sorted (l : List String) :
    (sortStrings l).Pairwise (fun a b => strLe a b = true) := by
  induction l with
  | nil => simp [sortStrings]
  | cons s ss ih => exact insertSorted_sorted s (sortStrings ss) ih

theorem argBytes_pos (s : String) : 1 ≤ (argBytes s).length := by
  simp [argBytes]

theorem ptrListOf_length (args : List String) (env : List (String × String)) :
    (ptrListOf args env).length = args.length + 1 + (envStrings env).length + 1 := by
  simp [ptrListOf, ptrsOf_length]
  omega

theorem storeArguments_ok (args : List String) (env : List (String × String)) (m0 : Mem)
    (out : ArgsOut) (h : storeArguments args env m0 = .ok out) :
    out.argc = args.length ∧
    out.argv = endOff (allStrings args env) 4096 ∧
    out.mem = ((ptrListOf args env).foldl ptrSlotStep
      (((allStrings args env).foldl strPtrStep (m0, 4096, ([] : List Nat))).1,
       endOff (allStrings args env) 4096)).1 ∧
    endOff (allStrings args env) 4096 + 8 * (ptrListOf args env).length < 12288 := by
  have hargv : endOff (envStrings env) (endOff args 4096) =
      endOff (allStrings args env) 4096 := by
    unfold allStrings
    exact (endOff_append args (envStrings env) 4096).symm
  have hmem : ((envStrings env).foldl strPtrStep
        ((args.foldl strPtrStep (m0, 4096, ([] : List Nat))).1, endOff args 4096,
          ([] ++ ptrsOf args 4096) ++ [0])).1 =
      ((allStrings args env).foldl strPtrStep (m0, 4096, ([] : List Nat))).1 := by
    unfold allStrings
    rw [List.foldl_append]
    have h1 : (args.foldl strPtrStep (m0, 4096, ([] : List Nat))) =
        ((args.foldl strPtrStep (m0, 4096, ([] : List Nat))).1, endOff args 4096,
         [] ++ ptrsOf args 4096) := by
      rw [← strFold_off args m0 4096 [], ← strFold_ptrs args m0 4096 []]
    rw [h1]
    exact strFold_mem_indep _ _ _ _ _
  unfold storeArguments at h
  simp only [strFold_off, strFold_ptrs] at h
  rw [ptrFold_off] at h
  split at h
  · exact absurd h (by simp)
  · next hlt =>
      rw [Except.ok.injEq] at h
      subst h
      refine ⟨rfl, ?_, ?_, ?_⟩
      · exact hargv
      · show ((((([] ++ ptrsOf args 4096) ++ [0]) ++
            ptrsOf (envStrings env) (endOff args 4096)) ++ [0]).foldl ptrSlotStep
            (((envStrings env).foldl strPtrStep
              ((args.foldl strPtrStep (m0, 4096, ([] : List Nat))).1, endOff args 4096,
                ([] ++ ptrsOf args 4096) ++ [0])).1,
             endOff (envStrings env) (endOff args 4096))).1 = _
        rw [hmem, hargv]
        rfl
      · rw [← hargv, ptrListOf_length]
        simp only [List.length_append, List.length_cons, List.length_nil,
          ptrsOf_length] at hlt
        omega

/-- C3: `storeArguments(args, env)` lays out linear memory from offset
4096: each argv string, then each `KEY=VALUE` env entry with keys sorted
lexicographically, is written as NUL-terminated UTF-8 with an 8-byte
aligned start pointer; the returned `argv` points at a table of 8-byte
little-endian slots (low word = pointer, high word = 0) in which a 0 slot
terminates the argv pointers before the envp pointers begin and a second 0
slot ends the envp pointers; the returned `argc` is `args.length`. -/
theorem C3_storeArguments_layout (args : List String) (env : List (String × String))
    (m0 : Mem) (out : ArgsOut) (h : storeArguments args env m0 = .ok out) :
    out.argc = args.length ∧
    (sortStrings (env.map Prod.fst)).Pairwise (fun a b => strLe a b = true) ∧
    (sortStrings (env.map Prod.fst)).Perm (env.map Prod.fst) ∧
    out.argv = endOff (allStrings args env) 4096 ∧
    (∀ i, i < (allStrings args env).length →
      4096 ≤ (ptrsOf (allStrings args env) 4096).getD i 0 ∧
      (ptrsOf (allStrings args env) 4096).getD i 0 % 8 = 0 ∧
      ∀ k, k < (argBytes ((allStrings args env).getD i "")).length →
        out.mem ((ptrsOf (allStrings args env) 4096).getD i 0 + k) =
          (argBytes ((allStrings args env).getD i "")).getD k 0 % 256) ∧
    (∀ j, j < args.length →
      getUint32 out.mem (out.argv + 8 * j) =
        (ptrsOf (allStrings args env) 4096).getD j 0 ∧
      getUint32 out.mem (out.argv + 8 * j + 4) = 0) ∧
    (getUint32 out.mem (out.argv + 8 * args.length) = 0 ∧
     getUint32 out.mem (out.argv + 8 * args.length + 4) = 0) ∧
    (∀ j, j < (envStrings env).length →
      getUint32 out.mem (out.argv + 8 * (args.length + 1 + j)) =
        (ptrsOf (allStrings args env) 4096).getD (args.length + j) 0 ∧
      getUint32 out.mem (out.argv + 8 * (args.length + 1 + j) + 4) = 0) ∧
    (getUint32 out.mem (out.argv + 8 * (args.length + 1 + (envStrings env).length)) = 0 ∧
     getUint32 out.mem
       (out.argv + 8 * (args.length + 1 + (envStrings env).length) + 4) = 0) := by
  obtain ⟨hargc, hargv, hmem, hbound⟩ := storeArguments_ok args env m0 out h
  have hall_len : (allStrings args env).length = args.length + (envStrings env).length := by
    simp [allStrings]
  have hPlen := ptrListOf_length args env
  have h8 : (4096 : Nat) % 8 = 0 := by norm_num
  have hspec := ptrsOf_spec (allStrings args env) 4096 h8
  have hptr_lt : ∀ i, i < (allStrings args env).length →
      (ptrsOf (allStrings args env) 4096).getD i 0 < endOff (allStrings args env) 4096 := by
    intro i hi
    have hs := (hspec i hi).2.2
    have hb := argBytes_pos ((allStrings args env).getD i "")
    omega
  have hend_lt : endOff (allStrings args env) 4096 < 4294967296 := by omega
  have hslots := ptrFold_slots (ptrListOf args env)
    (((allStrings args env).foldl strPtrStep (m0, 4096, ([] : List Nat))).1)
    (endOff (allStrings args env) 4096)
  have hPl : ptrsOf (allStrings args env) 4096 =
      ptrsOf args 4096 ++ ptrsOf (envStrings env) (endOff args 4096) := by
    unfold allStrings
    exact ptrsOf_append _ _ _
  refine ⟨hargc, sortStrings_sorted _, sortStrings_perm _, hargv, ?_, ?_, ?_, ?_, ?_⟩
  · intro i hi
    refine ⟨(hspec i hi).1, (hspec i hi).2.1, ?_⟩
    intro k hk
    have hfr := ptrFold_frame (ptrListOf args env)
      (((allStrings args env).foldl strPtrStep (m0, 4096, ([] : List Nat))).1)
      (endOff (allStrings args env) 4096)
      ((ptrsOf (allStrings args env) 4096).getD i 0 + k)
      (by have hs := (hspec i hi).2.2; omega)
    rw [hmem, hfr]
    exact strFold_content (allStrings args env) m0 4096 [] i hi k hk
  · intro j hj
    have hsl := hslots j (by omega)
    have hPj : (ptrListOf args env).getD j 0 =
        (ptrsOf (allStrings args env) 4096).getD j 0 := by
      unfold ptrListOf
      rw [getD_append_lt _ _ _ (by simp [ptrsOf_length]; try omega)]
      rw [getD_append_lt _ _ _ (by simp [ptrsOf_length]; try omega)]
      rw [getD_append_lt _ _ _ (by rw [ptrsOf_length]; omega)]
      rw [hPl, getD_append_lt _ _ _ (by rw [ptrsOf_length]; omega)]
    have hmod : (ptrsOf (allStrings args env) 4096).getD j 0 % 4294967296 =
        (ptrsOf (allStrings args env) 4096).getD j 0 := by
      apply Nat.mod_eq_of_lt
      have := hptr_lt j (by omega)
      omega
    constructor
    · rw [hmem, hargv]
      exact hsl.1.trans (by rw [hPj, hmod])
    · rw [hmem, hargv]
      exact hsl.2
  · have hsl := hslots args.length (by omega)
    have hPj : (ptrListOf args env).getD args.length 0 = 0 := by
      unfold ptrListOf
      rw [getD_append_lt _ _ _ (by simp [ptrsOf_length]; try omega)]
      rw [getD_append_lt _ _ _ (by simp [ptrsOf_length]; try omega)]
      rw [getD_append_ge _ _ _ (by rw [ptrsOf_length])]
      simp [ptrsOf_length]
    constructor
    · rw [hmem, hargv]
      exact hsl.1.trans (by rw [hPj])
    · rw [hmem, hargv]
      exact hsl.2
  · intro j hj
    have hsl := hslots (args.length + 1 + j) (by omega)
    have hPj : (ptrListOf args env).getD (args.length + 1 + j) 0 =
        (ptrsOf (allStrings args env) 4096).getD (args.length + j) 0 := by
      unfold ptrListOf
      rw [getD_append_lt _ _ _ (by simp [ptrsOf_length]; try omega)]
      rw [getD_append_ge _ _ _ (by simp [ptrsOf_length]; try omega)]
      have hidx : args.length + 1 + j - (ptrsOf args 4096 ++ [0]).length = j := by
        simp [ptrsOf_length]
      rw [hidx, hPl, getD_append_ge _ _ _ (by rw [ptrsOf_length]; omega)]
      have hidx2 : args.length + j - (ptrsOf args 4096).length = j := by
        rw [ptrsOf_length]
        omega
      rw [hidx2]
    have hmod : (ptrsOf (allStrings args env) 4096).getD (args.length + j) 0 % 4294967296 =
        (ptrsOf (allStrings args env) 4096).getD (args.length + j) 0 := by
      apply Nat.mod_eq_of_lt
      have := hptr_lt (args.length + j) (by omega)
      omega
    constructor
    · rw [hmem, hargv]
      exact hsl.1.trans (by rw [hPj, hmod])
    · rw [hmem, hargv]
      exact hsl.2
  · have hsl := hslots (args.length + 1 + (envStrings env).length) (by omega)
    have hPj : (ptrListOf args env).getD (args.length + 1 + (envStrings env).length) 0
        = 0 := by
      unfold ptrListOf
      rw [getD_append_ge _ _ _ (by simp [ptrsOf_length]; try omega)]
      cases args.length + 1 + (envStrings env).length -
        (ptrsOf args 4096 ++ [0] ++ ptrsOf (envStrings env) (endOff args 4096)).length with
      | zero => rfl
      | succ n => rfl
    constructor
    · rw [hmem, hargv]
      exact hsl.1.trans (by rw [hPj])
    · rw [hmem, hargv]
      exact hsl.2

/-- Witness for C3 on the spec's example `args = ["js", "hello"]`,
`env = {"B": "2", "A": "1"}`: strings at 4096, 4104, 4112, 4120, env keys
written in the order `A=1`, `B=2`, pointer table at 4128 with the argv
terminator in slot 2 and the `A=1` pointer in slot 3. -/
theorem C3_witness :
    storeArguments c3Args c3Env zeroMem = .ok c3Out ∧
    c3Out.argc = 2 ∧
    c3Out.argv = 4128 ∧
    c3Out.mem 4112 = 65 ∧
    c3Out.mem 4113 = 61 ∧
    c3Out.mem 4114 = 49 ∧
    c3Out.mem 4115 = 0 ∧
    getUint32 c3Out.mem 4128 = 4096 ∧
    getUint32 c3Out.mem (4128 + 8 * 2) = 0 ∧
    getUint32 c3Out.mem (4128 + 8 * 3) = 4112 := by
  have h := C3_storeArguments_layout c3Args c3Env zeroMem c3Out rfl
  refine ⟨rfl, ?_, ?_, ?_, ?_, ?_, ?_, ?_, ?_, ?_⟩
  · exact h.1
  · exact h.2.2.2.1.trans (by decide)
  · have hc := (h.2.2.2.2.1 2 (by decide)).2.2 0 (by decide)
    rw [show (ptrsOf (allStrings c3Args c3Env) 4096).getD 2 0 + 0 = 4112 from by decide]
      at hc
    exact hc.trans (by decide)
  · have hc := (h.2.2.2.2.1 2 (by decide)).2.2 1 (by decide)
    rw [show (ptrsOf (allStrings c3Args c3Env) 4096).getD 2 0 + 1 = 4113 from by decide]
      at hc
    exact hc.trans (by decide)
  · have hc := (h.2.2.2.2.1 2 (by decide)).2.2 2 (by decide)
    rw [show (ptrsOf (allStrings c3Args c3Env) 4096).getD 2 0 + 2 = 4114 from by decide]
      at hc
    exact hc.trans (by decide)
  · have hc := (h.2.2.2.2.1 2 (by decide)).2.2 3 (by decide)
    rw [show (ptrsOf (allStrings c3Args c3Env) 4096).getD 2 0 + 3 = 4115 from by decide]
      at hc
    exact hc.trans (by decide)
  · have hc := (h.2.2.2.2.2.1 0 (by decide)).1
    rw [h.2.2.2.1] at hc
    rw [show endOff (allStrings c3Args c3Env) 4096 + 8 * 0 = 4128 from by decide] at hc
    exact hc.trans (by decide)
  · have hc := h.2.2.2.2.2.2.1.1
    rw [h.2.2.2.1] at hc
    rw [show endOff (allStrings c3Args c3Env) 4096 + 8 * c3Args.length = 4128 + 8 * 2
      from by decide] at hc
    exact hc
  · have hc := (h.2.2.2.2.2.2.2.1 0 (by decide)).1
    rw [h.2.2.2.1] at hc
    rw [show endOff (allStrings c3Args c3Env) 4096 + 8 * (c3Args.length + 1 + 0)
        = 4128 + 8 * 3 from by decide] at hc
    exact hc.trans (by decide)

/-! ### Driver lemmas -/

/-- C5: if the guest's `run` synchronously invokes `wasmExit`, the promise
returned by the driver's `run(args, env)` resolves; any `resume()` called
after the guest has exited raises the `AlreadyExited` error instead of
re-entering the guest. -/
theorem C5_run_exit_resolves (gRun : Nat → Nat → DriverState → DriverState)
    (args : List String) (env : List (String × String)) (s : DriverState) (m : Mem)
    (hmod : s.moduleLoaded = true)
    (hexit : ∀ a b, (gRun a b s).exited = true)
    (hmod2 : ∀ a b, (gRun a b s).moduleLoaded = true)
    (hstore : exceptIsOk (storeArguments args env m) = true) :
    ∃ s2 m2, runDriver gRun args env s m = .ok (s2, m2) ∧ s2.exited = true ∧
      s2.exitResolved = true ∧
      ∀ g2, resumeDriver g2 s2 = .error alreadyExitedMsg := by
  unfold runDriver
  rw [hmod]
  rw [if_neg (by simp)]
  cases hst : storeArguments args env m with
  | error e => rw [hst] at hstore; simp [exceptIsOk] at hstore
  | ok out =>
      dsimp only
      rw [if_pos (hexit out.argc out.argv)]
      refine ⟨_, out.mem, rfl, hexit out.argc out.argv, rfl, ?_⟩
      intro g2
      unfold resumeDriver
      rw [if_neg (by simp [hmod2 out.argc out.argv]),
        if_pos (hexit out.argc out.argv)]

/-- Witness for C5: a loaded driver whose guest run exits immediately. -/
theorem C5_witness :
    ∃ s2 m2, runDriver gRunExit [] [] loadedDriver zeroMem = .ok (s2, m2) ∧
      s2.exited = true ∧ s2.exitResolved = true ∧
      ∀ g2, resumeDriver g2 s2 = .error alreadyExitedMsg :=
  C5_run_exit_resolves gRunExit [] [] loadedDriver zeroMem rfl
    (fun _ _ => rfl) (fun _ _ => rfl) (by decide)

/-- C8 counterexample: `exit(0)` invoked before `loadModule` does not fail
with the `ModuleNotLoaded` error — it returns normally — and it changes
the driver state (sets the exited flag), contradicting the claim that
every driver operation, `exit` included, fails before `loadModule` and
leaves the state unchanged. -/
theorem C8_counterexample :
    exitDriver 0 freshDriver =
      { moduleLoaded := false, exited := true, exitResolved := false, pendingEvent := none } ∧
    exitDriver 0 freshDriver ≠ freshDriver := by
  exact ⟨rfl, by decide⟩

/-- C8 amended: `run`, `resume`, `getsp` and `resetMemoryDataView` invoked
before `loadModule` fail with the `ModuleNotLoaded` error and leave the
driver state unchanged (they throw before mutating anything); `exit`
performs no module check and marks the driver exited even before
`loadModule`. -/
theorem C8_module_not_loaded (s : DriverState) (h : s.moduleLoaded = false) :
    (∀ gRun args env m, runDriver gRun args env s m = .error moduleNotLoadedMsg) ∧
    (∀ gResume, resumeDriver gResume s = .error moduleNotLoadedMsg) ∧
    (∀ spVal, getspDriver spVal s = .error moduleNotLoadedMsg) ∧
    resetMemoryDataViewDriver s = .error moduleNotLoadedMsg ∧
    (∀ code, exitDriver code s = { s with exited := true }) := by
  refine ⟨?_, ?_, ?_, ?_, ?_⟩
  · intro gRun args env m
    unfold runDriver
    rw [h, if_pos rfl]
  · intro gResume
    unfold resumeDriver
    rw [h, if_pos rfl]
  · intro spVal
    unfold getspDriver
    rw [h, if_pos rfl]
  · unfold resetMemoryDataViewDriver
    rw [h, if_pos rfl]
  · intro code
    rfl

/-- Witness for the amended C8 at the fresh driver state. -/
theorem C8_witness :
    runDriver gRunExit [] [] freshDriver zeroMem = .error moduleNotLoadedMsg ∧
    resumeDriver (fun s => s) freshDriver = .error moduleNotLoadedMsg ∧
    getspDriver 0 freshDriver = .error moduleNotLoadedMsg ∧
    resetMemoryDataViewDriver freshDriver = .error moduleNotLoadedMsg ∧
    exitDriver 0 freshDriver = { freshDriver with exited := true } :=
  ⟨(C8_module_not_loaded freshDriver rfl).1 gRunExit [] [] zeroMem,
   (C8_module_not_loaded freshDriver rfl).2.1 (fun s => s),
   (C8_module_not_loaded freshDriver rfl).2.2.1 0,
   (C8_module_not_loaded freshDriver rfl).2.2.2.1,
   (C8_module_not_loaded freshDriver rfl).2.2.2.2 0⟩

/-- C9: a callable produced by `_makeFuncWrapper(id)`, invoked with a
receiver and arguments on a live driver, stages the pending event
`{id, receiver, args}`, re-enters the guest through `resume()` exactly
once before returning, and returns the event's `result` field as the
guest filled it in. -/
theorem C9_func_wrapper (g : GuestResumeFn) (s : DriverState) (id : Nat)
    (receiver : JSValue) (args : List JSValue)
    (hmod : s.moduleLoaded = true) (hex : s.exited = false) :
    (funcWrapperInvoke g s id receiver args).staged = some (mkEvent id receiver args) ∧
    (funcWrapperInvoke g s id receiver args).resumeCalls = 1 ∧
    (funcWrapperInvoke g s id receiver args).result =
      (g { s with pendingEvent := some (mkEvent id receiver args) }
        (mkEvent id receiver args)).2.result ∧
    exceptIsOk (funcWrapperInvoke g s id receiver args).final = true := by
  unfold funcWrapperInvoke resumeWithEvent
  simp only [hmod, hex]
  rw [if_neg (by simp), if_neg (by simp)]
  dsimp only
  split <;> exact ⟨rfl, rfl, rfl, rfl⟩

/-- Witness for C9 at a concrete input: wrapper id 42 invoked with
receiver `"recv"` and args `["x", 7.0]` against a guest that fills in the
result `2.0`. -/
theorem C9_witness :
    (funcWrapperInvoke gResume9 loadedDriver 42 (.str "recv")
        [.str "x", .num 4619567317775286272]).staged =
      some (mkEvent 42 (.str "recv") [.str "x", .num 4619567317775286272]) ∧
    (funcWrapperInvoke gResume9 loadedDriver 42 (.str "recv")
        [.str "x", .num 4619567317775286272]).resumeCalls = 1 ∧
    (funcWrapperInvoke gResume9 loadedDriver 42 (.str "recv")
        [.str "x", .num 4619567317775286272]).result = some (.num 4611686018427387904) ∧
    exceptIsOk (funcWrapperInvoke gResume9 loadedDriver 42 (.str "recv")
        [.str "x", .num 4619567317775286272]).final = true := by
  have h := C9_func_wrapper gResume9 loadedDriver 42 (.str "recv")
    [.str "x", .num 4619567317775286272] rfl rfl
  exact ⟨h.1, h.2.1, h.2.2.1.trans (by decide), h.2.2.2⟩

end GoWasmGlue
